/-
Verification development for the FIA-tools foci-quantification pipeline.

The Python sources are shallowly embedded: strings are lists of characters
(`Str`), images are 2D grids of natural-number pixel values (`Img`), floats
that only ever hold exact decimal values are rationals, and exceptions are
`Except` / explicit outcome types.  Each definition mirrors one function (or
one self-contained code region) of the repository; the theorems at the end of
the file settle the frozen claims C1..C10.
-/
import Mathlib

/-! ## Generic string machinery (Python `str` operations) -/

/-- Python strings, embedded as lists of characters. -/
abbrev Str := List Char

/-- Python `str.lower()` (ASCII fragment). -/
def pyLower (s : Str) : Str := s.map Char.toLower

/-- Python `str.strip()`: remove leading and trailing whitespace. -/
def pyStrip (s : Str) : Str :=
  ((s.dropWhile Char.isWhitespace).reverse.dropWhile Char.isWhitespace).reverse

/-- Fuelled worker for `replaceAll`; the fuel is an upper bound on the length
of the string still to be scanned. -/
def replaceAllF (pat repl : Str) : Nat → Str → Str
  | 0, s => s
  | _ + 1, [] => []
  | n + 1, c :: rest =>
    if pat.isPrefixOf (c :: rest) && !pat.isEmpty then
      repl ++ replaceAllF pat repl n ((c :: rest).drop pat.length)
    else
      c :: replaceAllF pat repl n rest

/-- Python `s.replace(pat, repl)`: replace every non-overlapping occurrence of
`pat` in `s`, scanning left to right.  (The sources never call `replace` with
an empty pattern; for an empty pattern this embedding is the identity.) -/
def replaceAll (s pat repl : Str) : Str := replaceAllF pat repl s.length s

/-- `occursAt pat s i`: the pattern `pat` occurs in `s` starting at index `i`. -/
def occursAt (pat s : Str) (i : Nat) : Bool := pat.isPrefixOf (s.drop i)

/-- `pat` occurs somewhere in `s` (Python `pat in s`). -/
def occursIn (pat s : Str) : Bool :=
  (List.range (s.length + 1)).any fun i => occursAt pat s i

/-- Fuelled worker for `splitOnSub`. -/
def splitOnSubF (sep : Str) : Nat → Str → List Str
  | 0, s => [s]
  | _ + 1, [] => [[]]
  | n + 1, c :: rest =>
    if sep.isPrefixOf (c :: rest) && !sep.isEmpty then
      [] :: splitOnSubF sep n ((c :: rest).drop sep.length)
    else
      match splitOnSubF sep n rest with
      | [] => [[c]]
      | piece :: pieces => (c :: piece) :: pieces

/-- Python `s.split(sep)` for a non-empty separator `sep`. -/
def splitOnSub (sep s : Str) : List Str := splitOnSubF sep s.length s

/-- Split a string into its `'\n'`-separated lines (the line sequence a Python
text-file iteration produces, after the `'\n'` terminators are stripped). -/
def splitLines (s : Str) : List Str := splitOnSub ['\n'] s

/-- Python `os.path.splitext` on a plain file name: split off the extension at
the last dot, provided some character precedes that dot. -/
def splitext (s : Str) : Str × Str :=
  match (s.reverse.takeWhile fun c => c ≠ '.') with
  | ext =>
    if ext.length + 1 ≤ s.length ∧ ¬ (s.take (s.length - ext.length - 1)).all (fun c => c = '.')
    then (s.take (s.length - ext.length - 1), s.drop (s.length - ext.length - 1))
    else (s, [])

/-- Numeric value of a string of decimal digits, most significant first. -/
def digitsVal (s : Str) : Nat := s.foldl (fun acc c => 10 * acc + (c.toNat - 48)) 0

/-! ## C4: the interactive confirmation prompts

Each `..._prompt` function maps the raw user answer to the control-flow
outcome the corresponding Python prompt produces. -/

/-- Outcome of answering an interactive prompt. -/
inductive PromptOutcome where
  /-- The script goes on processing. -/
  | proceed : PromptOutcome
  /-- `raise ValueError(msg)`: the exception propagates and aborts the run. -/
  | raiseValueError (msg : String) : PromptOutcome
  /-- The surrounding function returns normally; no exception is raised. -/
  | cancelReturn : PromptOutcome
  /-- `exit()` is called, raising `SystemExit`. -/
  | raiseSystemExit : PromptOutcome
  /-- The answer only sets a boolean flag; processing continues either way. -/
  | setFlag (b : Bool) : PromptOutcome
deriving DecidableEq

/-- Whether the outcome is a raised exception. -/
def PromptOutcome.raises : PromptOutcome → Bool
  | .raiseValueError _ => true
  | .raiseSystemExit => true
  | _ => false

/-- Stage 1, `select_channel_name` (1_select_channels.py 388-395): the
"Start analyzing files in the specified folders?" prompt. -/
def select_channel_name_prompt (ans : Str) : PromptOutcome :=
  let a := pyLower (pyStrip ans)
  if a = "no".toList ∨ a = "n".toList then
    .raiseValueError "Analysis canceled by user."
  else if ¬ (a = "yes".toList ∨ a = "y".toList ∨ a = "no".toList ∨ a = "n".toList) then
    .raiseValueError "Incorrect input. Please enter yes/no"
  else .proceed

/-- Stage 1, `process_image` (1_select_channels.py 144-151): the overwrite
confirmation shown when the `foci_assay` folder already exists. -/
def stage1_overwrite_prompt (ans : Str) : PromptOutcome :=
  let a := pyLower (pyStrip ans)
  if a = "no".toList then .raiseValueError "Analysis canceled by user." else .proceed

/-- Stage 2, `main_analyze_nuclei` (2_analyze_nuclei.py 122-124): the
"Start analyzing Nuclei folders?" prompt. -/
def main_analyze_nuclei_prompt (ans : Str) : PromptOutcome :=
  let a := pyLower (pyStrip ans)
  if a ≠ "yes".toList then .raiseValueError "Analysis canceled by user." else .proceed

/-- Stage 2, `process_nuclei` (2_nuclei_mask_generation.py 182-189): the
overwrite confirmation for an existing `Final_Nuclei_Mask_` folder. -/
def process_nuclei_overwrite_prompt (ans : Str) : PromptOutcome :=
  let a := pyLower (pyStrip ans)
  if a = "no".toList then .raiseValueError "Analysis canceled by user." else .proceed

/-- Stage 3, `main_filter_imgs` (3_filter_imgs.py 320-324): the
"Start processing the found folders?" prompt. -/
def main_filter_imgs_prompt (ans : Str) : PromptOutcome :=
  let a := pyLower (pyStrip ans)
  if a = "no".toList ∨ a = "n".toList then
    .raiseValueError "Analysis canceled by user."
  else if ¬ (a = "yes".toList ∨ a = "y".toList ∨ a = "no".toList ∨ a = "n".toList) then
    .raiseValueError "Incorrect input. Please enter yes/no."
  else .proceed

/-- Stage 3, `main_filter_foci` (3_foci_mask_generation.py 369-374): the
"You selected ... Proceed?" prompt. -/
def main_filter_foci_prompt (ans : Str) : PromptOutcome :=
  let a := pyLower (pyStrip ans)
  if a = "no".toList ∨ a = "n".toList then
    .raiseValueError "Analysis canceled by user."
  else if ¬ (a = "yes".toList ∨ a = "y".toList ∨ a = "no".toList ∨ a = "n".toList) then
    .raiseValueError "Incorrect input. Please enter yes/no."
  else .proceed

/-- Stage 4, `main_summarize_res` (4_foci_quantification.py 551-553): the
"Start processing?" prompt. -/
def main_summarize_res_prompt (ans : Str) : PromptOutcome :=
  let a := pyLower (pyStrip ans)
  if ¬ (a = "yes".toList ∨ a = "y".toList) then
    .raiseValueError "Processing canceled by user."
  else .proceed

/-- Stage 4, `main_summarize_res` (4_foci_quantification.py 554-557): the
colocalization question; it only selects a boolean parameter. -/
def coloc_prompt (ans : Str) : PromptOutcome :=
  let a := pyLower (pyStrip ans)
  .setFlag (a = "yes".toList ∨ a = "y".toList)

/-- 4_calculate_nuc_foci.py 137-140: the "Do you want to start processing
files?" prompt; cancellation calls `exit()`, raising `SystemExit`. -/
def calc_nuc_foci_prompt (ans : Str) : PromptOutcome :=
  let a := pyLower (pyStrip ans)
  if ¬ (a = "yes".toList ∨ a = "y".toList) then .raiseSystemExit else .proceed

/-- Step1.py 200-203, `main_merge_images`: the "Start analyzing files ..."
prompt. -/
def step1_prompt (ans : Str) : PromptOutcome :=
  let a := pyLower (pyStrip ans)
  if a = "no".toList then .raiseValueError "Analysis canceled by user" else .proceed

/-- Step1.py 87-91, `process_image`: the overwrite confirmation. -/
def step1_overwrite_prompt (ans : Str) : PromptOutcome :=
  let a := pyLower (pyStrip ans)
  if a = "no".toList then .raiseValueError "Analysis canceled by user" else .proceed

/-- Step3.py 157-161, `process_folders`: the "Start processing the found
folders?" prompt; cancellation prints a message and returns normally. -/
def step3_prompt (ans : Str) : PromptOutcome :=
  let a := pyLower (pyStrip ans)
  if ¬ (a = "yes".toList ∨ a = "y".toList) then .cancelReturn else .proceed

/-- Stage 5, `main_graphs_representation` (5_graph_representation.py 220-225):
the "Generate graphs for all data in the JSON?" prompt; a no answer logs a
warning and returns normally. -/
def stage5_prompt (ans : Str) : PromptOutcome :=
  let a := pyLower (pyStrip ans)
  if a = "no".toList ∨ a = "n".toList then .cancelReturn
  else if ¬ (a = "yes".toList ∨ a = "y".toList) then
    .raiseValueError "Incorrect input. Please enter yes/no"
  else .proceed

/-! ## C8: stage-1 run-parameter validation -/

/-- The per-channel validation loop of `process_image`
(1_select_channels.py 127-137): raise on the first foci channel outside
`range(1, 13)`; `i` is the zero-based loop index. -/
def foci_channels_check : Nat → List Int → Except String Unit
  | _, [] => .ok ()
  | i, c :: rest =>
    if ¬ (1 ≤ c ∧ c ≤ 12) then
      .error ("Invalid channel number for Foci " ++ toString (i + 1) ++ " (must be 1-12).")
    else foci_channels_check (i + 1) rest

/-- The parameter validation performed by `process_image`
(1_select_channels.py 104-137) on the interactively entered numbers: file
type, nuclei channel, number of foci channels, and the individual foci
channel numbers (one list entry per `input()` call of the loop). -/
def stage1_param_check (file_type nuclei_channel num_foci_channels : Int)
    (foci_channels : List Int) : Except String Unit :=
  if ¬ (file_type = 1 ∨ file_type = 2 ∨ file_type = 3) then
    .error "Invalid file type selection (must be 1-3)."
  else if ¬ (1 ≤ nuclei_channel ∧ nuclei_channel ≤ 12) then
    .error "Invalid channel number for Nuclei (must be 1-12)."
  else if num_foci_channels < 1 then
    .error "Number of Foci channels must be at least 1."
  else foci_channels_check 0 foci_channels

/-! ## C10: the Windows-to-WSL path rewrite of `validate_path_files` -/

/-- The per-path conversion applied inside the list comprehension of
`validate_path_files` (validate_folders.py 38-43):
`path.strip().replace('C:\\', '/mnt/c/').replace('\\', '/')`. -/
def wsl_path_rewrite (p : Str) : Str :=
  replaceAll (replaceAll (pyStrip p) ("C:\\".toList) ("/mnt/c/".toList))
    ("\\".toList) ("/".toList)

/-- The path-list preprocessing of `validate_path_files`
(validate_folders.py 36-43): rewrite every path exactly when the first path
starts with `C:\`. -/
def validate_path_files_paths (folder_paths : List Str) : List Str :=
  match folder_paths with
  | [] => []
  | p0 :: _ =>
    if ("C:\\".toList).isPrefixOf p0 then folder_paths.map wsl_path_rewrite
    else folder_paths

/-! ## Images and labeled masks -/

/-- A 2D image with natural-number pixel values: `px i j` is the pixel in row
`i`, column `j` (0-based).  Only pixels with `i < h` and `j < w` are ever
inspected. -/
structure Img where
  h : Nat
  w : Nat
  px : Nat → Nat → Nat

/-- Build an image from a rectangular list of rows. -/
def mkImg (rows : List (List Nat)) : Img where
  h := rows.length
  w := (rows.headD []).length
  px := fun i j => (rows.getD i []).getD j 0

/-- All grid positions of an `h × w` image, in row-major (numpy `ravel`)
order. -/
def posListHW (h w : Nat) : List (Nat × Nat) :=
  (List.range h).flatMap fun i => (List.range w).map fun j => (i, j)

/-- All grid positions of an image, in row-major order. -/
def posList (m : Img) : List (Nat × Nat) := posListHW m.h m.w

/-- `numpy`'s `arr.max()` over all pixels of the grid (0 for an empty grid;
numpy itself raises on an empty array, so theorems about code that calls
`.max()` carry a non-emptiness hypothesis). -/
def img_max (m : Img) : Nat :=
  ((posList m).map fun p => m.px p.1 p.2).foldl max 0

/-- The distinct values of a list, sorted ascending (`numpy.unique`). -/
def uniqueSorted (l : List Nat) : List Nat :=
  l.dedup.insertionSort (· ≤ ·)

/-- `numpy.unique` of the pixel values of an image with the background label 0
removed; this is also the ascending list of region labels that
`skimage.measure.regionprops` reports for a label image. -/
def uniqueNonzero (m : Img) : List Nat :=
  (uniqueSorted ((posList m).map fun p => m.px p.1 p.2)).filter fun v => decide (v ≠ 0)

/-- Two grid positions are 8-connected neighbours (the default full
connectivity of `skimage.measure.label` for 2D input). -/
def adjacent (p q : Nat × Nat) : Bool :=
  decide (p ≠ q) && decide (max p.1 q.1 - min p.1 q.1 ≤ 1)
    && decide (max p.2 q.2 - min p.2 q.2 ≤ 1)

/-- The position `q` lies on the grid of `m`. -/
def inGrid (m : Img) (q : Nat × Nat) : Bool :=
  decide (q.1 < m.h) && decide (q.2 < m.w)

/-- One step of a same-value connected path in `m`, from `p` to `q`. -/
def sameStep (m : Img) (p q : Nat × Nat) : Bool :=
  inGrid m q && adjacent p q && decide (m.px q.1 q.2 = m.px p.1 p.2)

/-- Fuelled reachability along same-value 8-connected paths. -/
def reach (m : Img) : Nat → (Nat × Nat) → (Nat × Nat) → Bool
  | 0, p, q => decide (p = q)
  | n + 1, p, q =>
    decide (p = q) || (posList m).any fun r => sameStep m p r && reach m n r q

/-- `q` is in the same same-value connected region of `m` as `p` (a fuel of
`h * w` covers every simple path on the grid). -/
def reachable (m : Img) (p q : Nat × Nat) : Bool := reach m (m.h * m.w) p q

/-- Row-major (raveled) index of a grid position. -/
def posIdx (m : Img) (p : Nat × Nat) : Nat := p.1 * m.w + p.2

/-- Canonical representative of the connected region of `p`: the minimal
raveled index among the positions reachable from `p`. -/
def regionRep (m : Img) (p : Nat × Nat) : Nat :=
  ((((posList m).filter fun q => reachable m p q).map (posIdx m))).foldl min (posIdx m p)

/-- Representatives of the nonzero regions of `m`, in raster order of first
appearance (the order in which `skimage.measure.label` numbers regions). -/
def repList (m : Img) : List Nat :=
  (((posList m).filter fun p => decide (m.px p.1 p.2 ≠ 0)).map (regionRep m)).dedup

/-- Shallow model of `skimage.measure.label` with its default arguments as
called by stage 4: background 0 stays 0, and two pixels share a label exactly
when they are connected by an 8-connected path of pixels of the same nonzero
value; labels are numbered 1, 2, … in raster order of first appearance. -/
def measure_label (m : Img) : Img where
  h := m.h
  w := m.w
  px := fun i j =>
    if m.px i j = 0 then 0 else (repList m).indexOf (regionRep m (i, j)) + 1

/-! ## Stage 4: `count_foci_in_nuclei` (4_foci_quantification.py 292-360) -/

/-- One row of the per-nucleus results CSV written by
`count_foci_in_nuclei`.  The numeric values are the ones computed before CSV
serialisation (the CSV additionally renders `relative_foci_area` with two
decimal places). -/
structure FociRow where
  image_key : Str
  nucleus : Nat
  foci_count : Nat
  nucleus_area_px : Nat
  nucleus_area_micron : ℚ
  total_foci_px : Nat
  total_foci_micron : ℚ
  relative_foci_area : ℚ
deriving DecidableEq

/-- Number of pixels of the label image `lab` carrying label `n`
(`regionprops(...)[i].area`). -/
def regionArea (lab : Img) (n : Nat) : Nat :=
  ((posList lab).filter fun p => decide (lab.px p.1 p.2 = n)).length

/-- Cell `(n, l)` of the 2D histogram accumulated by the pixel loop of
`count_foci_in_nuclei`: the number of pixel positions at which the labeled
nuclei image has value `n` and the labeled foci image has value `l`, counted
only when both are nonzero. -/
def hist2d (ln lf : Img) (n l : Nat) : Nat :=
  ((posList ln).filter fun p =>
    decide (ln.px p.1 p.2 = n) && decide (lf.px p.1 p.2 = l)
      && decide (ln.px p.1 p.2 ≠ 0) && decide (lf.px p.1 p.2 ≠ 0)).length

/-- `count_foci_in_nuclei` (4_foci_quantification.py 292-360), the
"fast 2D-histogram" implementation: relabel both masks with
`measure.label`, accumulate the nucleus-label × foci-label pixel histogram in
one pass, and report one row per nucleus region.  The CSV write/read round
trip through the temp folder carries exactly these rows. -/
def count_foci_in_nuclei (nuclei_mask foci_mask : Img) (pixel_area : ℚ)
    (image_key : Str) : Except String (List FociRow) :=
  if ¬ (nuclei_mask.h = foci_mask.h ∧ nuclei_mask.w = foci_mask.w) then
    .error "Nuclei mask and foci mask must have the same shape."
  else
    let ln := measure_label nuclei_mask
    let lf := measure_label foci_mask
    let max_foc_label := img_max lf
    .ok <| (uniqueNonzero ln).map fun nuc_label =>
      let nuc_area_px := regionArea ln nuc_label
      let overlap_per_foc := (List.range (max_foc_label + 1)).map fun l => hist2d ln lf nuc_label l
      let foci_count := (overlap_per_foc.filter fun c => decide (c ≠ 0)).length
      let total_foci_px := overlap_per_foc.sum
      { image_key := image_key
        nucleus := nuc_label
        foci_count := foci_count
        nucleus_area_px := nuc_area_px
        nucleus_area_micron := (nuc_area_px : ℚ) * pixel_area
        total_foci_px := total_foci_px
        total_foci_micron := (total_foci_px : ℚ) * pixel_area
        relative_foci_area :=
          if 0 < nuc_area_px then ((total_foci_px : ℚ) / (nuc_area_px : ℚ)) * 100 else 0 }

/-- Modelled from the spec: the naive "per-nucleus loop" variant of the
overlap counting.  The spec describes the routine as "reimplemented multiple
times with only incidental differences (a 'fast histogram' version vs. a
'per-nucleus loop' version)", and the docstring of `count_foci_in_nuclei`
says it uses a single pass "instead of iterating over each nucleus"; the
per-nucleus loop version itself is not under src/.  Following the spec's
words, it iterates over each labeled nucleus region and scans the foci mask
for the foci labels overlapping that region. -/
def count_foci_in_nuclei_loop (nuclei_mask foci_mask : Img) (pixel_area : ℚ)
    (image_key : Str) : Except String (List FociRow) :=
  if ¬ (nuclei_mask.h = foci_mask.h ∧ nuclei_mask.w = foci_mask.w) then
    .error "Nuclei mask and foci mask must have the same shape."
  else
    let ln := measure_label nuclei_mask
    let lf := measure_label foci_mask
    .ok <| (uniqueNonzero ln).map fun nuc_label =>
      let region := (posList ln).filter fun p => decide (ln.px p.1 p.2 = nuc_label)
      let overlap_pixels := region.filter fun p => decide (lf.px p.1 p.2 ≠ 0)
      let foci_labels := (overlap_pixels.map fun p => lf.px p.1 p.2).dedup
      let nuc_area_px := region.length
      let total_foci_px := overlap_pixels.length
      { image_key := image_key
        nucleus := nuc_label
        foci_count := foci_labels.length
        nucleus_area_px := nuc_area_px
        nucleus_area_micron := (nuc_area_px : ℚ) * pixel_area
        total_foci_px := total_foci_px
        total_foci_micron := (total_foci_px : ℚ) * pixel_area
        relative_foci_area :=
          if 0 < nuc_area_px then ((total_foci_px : ℚ) / (nuc_area_px : ℚ)) * 100 else 0 }

/-! ## Stage 4: `build_intersection_mask` (4_foci_quantification.py 240-289) -/

/-- The shape check of `build_intersection_mask`: the set of shapes has one
element, i.e. every mask has the shape of the first. -/
def allSameShape : List Img → Bool
  | [] => true
  | m :: rest => rest.all fun m2 => decide (m2.h = m.h) && decide (m2.w = m.w)

/-- `itertools.product` over a list of lists, leftmost factor slowest. -/
def cartProd : List (List Nat) → List (List Nat)
  | [] => [[]]
  | l :: ls => l.flatMap fun a => (cartProd ls).map fun c => a :: c

/-- The overlap region of one label combination: the grid positions at which
every mask carries its combination label (the `overlap_bool` array of the
source, computed as the intersection of the per-mask label regions). -/
def comboOverlap (masks : List Img) (hw : Nat × Nat) (combo : List Nat) :
    List (Nat × Nat) :=
  (posListHW hw.1 hw.2).filter fun p =>
    (masks.zip combo).all fun mc => decide (mc.1.px p.1 p.2 = mc.2)

/-- One iteration of the combination loop of `build_intersection_mask`: if
the overlap of the combination is non-empty, write the current label counter
into the uint16 output (assignment wraps modulo 2^16, the classic NumPy
behaviour for an out-of-range Python int; NumPy ≥ 2 raises instead) and
increment the counter. -/
def intersectionStep (masks : List Img) (hw : Nat × Nat)
    (st : ((Nat × Nat) → Nat) × Nat) (combo : List Nat) :
    ((Nat × Nat) → Nat) × Nat :=
  let ov := comboOverlap masks hw combo
  if ov.isEmpty then st
  else (fun p => if p ∈ ov then st.2 % 65536 else st.1 p, st.2 + 1)

/-- `build_intersection_mask` (4_foci_quantification.py 240-289): label each
non-empty overlap of one label per input mask with a fresh counter value in a
uint16 zero background. -/
def build_intersection_mask (masks : List Img) : Except String Img :=
  if masks.length < 2 then
    .error "The function requires at least 2 masks."
  else if ¬ allSameShape masks then
    .error "All masks must have the same shape for intersection."
  else
    let hw : Nat × Nat := match masks with
      | [] => (0, 0)
      | m :: _ => (m.h, m.w)
    let label_lists := masks.map uniqueNonzero
    let combos := cartProd label_lists
    let final := combos.foldl (intersectionStep masks hw) (fun _ => 0, 1)
    .ok ⟨hw.1, hw.2, fun i j => final.1 (i, j)⟩

/-- Proof infrastructure for `build_intersection_mask`: the number of label
combinations with non-empty overlap that the loop processes strictly before
the first occurrence of `c` — i.e. the number of counter increments that have
happened when `c`'s overlap is written. -/
def cntBefore (masks : List Img) (hw : Nat × Nat) (cs : List (List Nat))
    (c : List Nat) : Nat :=
  ((cs.takeWhile fun c2 => decide (c2 ≠ c)).filter
    fun c2 => !(comboOverlap masks hw c2).isEmpty).length

/-! ## C3: timestamped folder discovery and latest-folder selection -/

/-- A calendar timestamp as parsed by `datetime.strptime(.., "%Y%m%d_%H%M%S")`. -/
structure DT where
  y : Nat
  mo : Nat
  d : Nat
  hh : Nat
  mi : Nat
  s : Nat
deriving DecidableEq

/-- Gregorian leap year (the `datetime` rule). -/
def isLeap (y : Nat) : Bool :=
  (decide (y % 4 = 0) && decide (y % 100 ≠ 0)) || decide (y % 400 = 0)

/-- Number of days of month `mo` of year `y`. -/
def daysInMonth (y mo : Nat) : Nat :=
  if mo = 2 then (if isLeap y then 29 else 28)
  else if mo = 4 ∨ mo = 6 ∨ mo = 9 ∨ mo = 11 then 30 else 31

/-- The timestamps representable by a `datetime` produced from the
`"%Y%m%d_%H%M%S"` format. -/
def dtValid (t : DT) : Bool :=
  decide (1 ≤ t.y) && decide (t.y ≤ 9999) && decide (1 ≤ t.mo) &&
  decide (t.mo ≤ 12) && decide (1 ≤ t.d) && decide (t.d ≤ daysInMonth t.y t.mo) &&
  decide (t.hh ≤ 23) && decide (t.mi ≤ 59) && decide (t.s ≤ 59)

/-- Chronological rank of a timestamp: the fields packed positionally. -/
def DT.key (t : DT) : Nat :=
  ((((t.y * 100 + t.mo) * 100 + t.d) * 100 + t.hh) * 100 + t.mi) * 100 + t.s

/-- Python `datetime` comparison (field-lexicographic `<`). -/
def DT.ltB (a b : DT) : Bool :=
  decide (a.y < b.y) || (decide (a.y = b.y) &&
    (decide (a.mo < b.mo) || (decide (a.mo = b.mo) &&
      (decide (a.d < b.d) || (decide (a.d = b.d) &&
        (decide (a.hh < b.hh) || (decide (a.hh = b.hh) &&
          (decide (a.mi < b.mi) || (decide (a.mi = b.mi) &&
            decide (a.s < b.s))))))))))

/-- Python string comparison `s < t` (lexicographic on code points). -/
def ltStr : Str → Str → Bool
  | _, [] => false
  | [], _ :: _ => true
  | a :: as, b :: bs => decide (a < b) || (decide (a = b) && ltStr as bs)

/-- Two-digit zero-padded decimal rendering. -/
def pad2 (n : Nat) : Str := [Nat.digitChar (n / 10), Nat.digitChar (n % 10)]

/-- Four-digit zero-padded decimal rendering. -/
def pad4 (n : Nat) : Str := pad2 (n / 100) ++ pad2 (n % 100)

/-- `t.strftime("%Y%m%d_%H%M%S")`. -/
def renderTs (t : DT) : Str :=
  pad4 t.y ++ pad2 t.mo ++ pad2 t.d ++ ['_'] ++ pad2 t.hh ++ pad2 t.mi ++ pad2 t.s

/-- Decimal value of a digit character. -/
def dval (c : Char) : Nat := c.toNat - 48

/-- Take exactly `n` leading decimal digits of `s`, returning them and the
rest of the string. -/
def takeDigits : Nat → Str → Option (Str × Str)
  | 0, s => some ([], s)
  | _ + 1, [] => none
  | n + 1, c :: rest =>
    if c.isDigit then (takeDigits n rest).map fun pr => (c :: pr.1, pr.2)
    else none

/-- Match the regex `_(\d{8}_\d{6})` at the start of `s`, returning the
captured group. -/
def matchTsAt (s : Str) : Option Str :=
  match s with
  | [] => none
  | c :: rest =>
    if c = '_' then
      match takeDigits 8 rest with
      | none => none
      | some (d8, r1) =>
        match r1 with
        | [] => none
        | c2 :: r2 =>
          if c2 = '_' then
            match takeDigits 6 r2 with
            | none => none
            | some (d6, _) => some (d8 ++ ['_'] ++ d6)
          else none
    else none

/-- `re.search(r"_(\d{8}_\d{6})", s)`: the group captured at the leftmost
position where the pattern matches. -/
def extractTs : Str → Option Str
  | [] => none
  | c :: rest =>
    match matchTsAt (c :: rest) with
    | some g => some g
    | none => extractTs rest

/-- `datetime.strptime(s, "%Y%m%d_%H%M%S")`: four year digits, two digits
each for month/day/hour/minute/second around the literal `'_'`, validated
against the calendar ranges; `none` models the raised `ValueError`. -/
def parseTs (s : Str) : Option DT :=
  match s with
  | [y1, y2, y3, y4, m1, m2, d1, d2, u, h1, h2, n1, n2, s1, s2] =>
    if (y1.isDigit && y2.isDigit && y3.isDigit && y4.isDigit &&
        m1.isDigit && m2.isDigit && d1.isDigit && d2.isDigit &&
        h1.isDigit && h2.isDigit && n1.isDigit && n2.isDigit &&
        s1.isDigit && s2.isDigit) = true ∧ u = '_' then
      let t : DT :=
        { y := ((dval y1 * 10 + dval y2) * 10 + dval y3) * 10 + dval y4
          mo := dval m1 * 10 + dval m2
          d := dval d1 * 10 + dval d2
          hh := dval h1 * 10 + dval h2
          mi := dval n1 * 10 + dval n2
          s := dval s1 * 10 + dval s2 }
      if dtValid t then some t else none
    else none
  | _ => none

/-- Stable descending sort of `(folder, timestamp)` pairs by the timestamp
string: `folder_timestamps.sort(key=lambda x: x[1], reverse=True)`. -/
def tsDescSort (l : List (Str × Str)) : List (Str × Str) :=
  l.insertionSort fun a b => ltStr a.2 b.2 = false

/-- `get_latest_nuclei_mask_folder` (4_foci_quantification.py 50-62), its
folder-selection core, with the hard-coded folder prefix
`"Final_Nuclei_Mask_"` generalised to `pre` and the directory listing passed
as `names`: keep the names starting with the prefix (`FileNotFoundError`
when there are none), extract each timestamp suffix with
`re.search(r"_(\d{8}_\d{6})", ..)` (`ValueError` when no name yields one),
sort descending by the timestamp string and return the first name. -/
def get_latest_mask_folder (pre : Str) (names : List Str) : Except String Str :=
  if (names.filter fun f => pre.isPrefixOf f).isEmpty then
    Except.error "No folders with the required prefix"
  else if ((names.filter fun f => pre.isPrefixOf f).filterMap fun f =>
      (extractTs f).map fun ts => (f, ts)).isEmpty then
    Except.error "Could not extract timestamps"
  else
    match (tsDescSort ((names.filter fun f => pre.isPrefixOf f).filterMap fun f =>
        (extractTs f).map fun ts => (f, ts))).head? with
    | some p => Except.ok p.1
    | none => Except.error "Could not extract timestamps"

/-- The timestamp-collection loop of `validate_path_files` step 3
(validate_folders.py 148-154): every listed name starting with the prefix
has the prefix stripped (a global `str.replace`) and the rest parsed by
`strptime`; a parse failure is an uncaught `ValueError` that aborts the
step. -/
def collectParsed (pre : Str) : List Str → Except String (List (DT × Str))
  | [] => Except.ok []
  | name :: rest =>
    if pre.isPrefixOf name then
      match parseTs (replaceAll name pre []) with
      | none => Except.error "time data does not match format"
      | some t => (collectParsed pre rest).map fun ps => (t, name) :: ps
    else collectParsed pre rest

/-- Python `max(.., key=lambda x: x[0])` over `(datetime, folder)` pairs: the
first pair with maximal timestamp under `datetime` comparison. -/
def pyMaxByKey (l : List (DT × Str)) : Option (DT × Str) :=
  match l with
  | [] => none
  | x :: rest =>
    some (rest.foldl (fun cur y => if DT.ltB cur.1 y.1 then y else cur) x)

/-- `validate_path_files` step 3's latest-folder selection
(validate_folders.py 148-162): collect `(timestamp, name)` for every name
carrying the prefix, then take `max(.., key=lambda x: x[0])`; `none` models
the logged-and-skipped case of no matching folder. -/
def validate_latest_processed (pre : Str) (names : List Str) :
    Except String (Option Str) :=
  (collectParsed pre names).map fun ps => (pyMaxByKey ps).map fun m => m.2

/-- The keep-the-latest update of `get_latest_foci_folders`
(4_foci_quantification.py 90-97) for one channel key: the first folder is
stored, and each later `(folder, timestamp)` pair replaces the stored one
exactly when its timestamp string is strictly greater. -/
def keep_latest_by_string (pairs : List (Str × Str)) : Option (Str × Str) :=
  match pairs with
  | [] => none
  | x :: rest =>
    some (rest.foldl (fun cur p => if ltStr cur.2 p.2 then p else cur) x)

/-! ## C5: the log-and-skip sites -/

/-- The per-file channel-availability gate of stage 1's `process_image` loop
(1_select_channels.py 249-259), over the files that reach the check: each
`(name, channels)` is skipped - with a logged error and no projection output -
exactly when the requested nuclei channel or any requested foci channel
exceeds the image's channel count, and processing continues with the rest.
Returns (names written, names logged-and-skipped), in loop order. -/
def stage1_channel_loop (nuclei_channel : Int) (foci_channels : List Int) :
    List (Str × Int) → List Str × List Str
  | [] => ([], [])
  | f :: rest =>
    let pr := stage1_channel_loop nuclei_channel foci_channels rest
    if decide (nuclei_channel > f.2) ||
        foci_channels.any (fun c => decide (c > f.2)) then
      (pr.1, f.1 :: pr.2)
    else (f.1 :: pr.1, pr.2)

/-- The foci-channel collection loop of `process_nuclei_image`
(4_foci_quantification.py 404-415): for each channel name (in sorted order)
with its mask file - `none` when the file is missing - the channel is
logged-and-skipped when the file is missing or its shape differs from the
nuclei mask's shape `nshape`, and kept otherwise. -/
def collect_channel_masks (nshape : Nat × Nat) :
    List (Str × Option Img) → List (Str × Img)
  | [] => []
  | ch :: rest =>
    match ch.2 with
    | none => collect_channel_masks nshape rest
    | some m =>
      if (m.h, m.w) = nshape then
        (ch.1, m) :: collect_channel_masks nshape rest
      else collect_channel_masks nshape rest

/-- `extract_common_part` (4_calculate_nuc_foci.py 12-23):
`re.match(r'processed_(.+?)_foci_projection\.tif', name)` - the literal
prefix, then the shortest non-empty group followed by the literal
`_foci_projection.tif`. -/
def ecpScan (lit : Str) (acc : Str) : Str → Option Str
  | [] => none
  | c :: rest =>
    if lit.isPrefixOf rest then some (acc ++ [c])
    else ecpScan lit (acc ++ [c]) rest

def extract_common_part (name : Str) : Option Str :=
  if ("processed_".toList).isPrefixOf name then
    ecpScan (("_foci_projection.tif").toList) [] (name.drop 10)
  else none

/-- The name of the companion nuclei mask for a foci file's common part
(4_calculate_nuc_foci.py 290). -/
def companion_name (common : Str) : Str :=
  ("processed_").toList ++ common ++
    ("_nuclei_projection_StarDist_processed.tif").toList

/-- The companion-mask loop of `calculate_nuc_foci`'s foci section
(4_calculate_nuc_foci.py 274-295): each foci file is skipped - with a printed
message and no combined-mask output - when it is not a file, when the common
part cannot be extracted, or when the corresponding nuclei mask
`processed_<common>_nuclei_projection_StarDist_processed.tif` is missing from
the final-nuclei-mask folder listing `nuclei_files`; otherwise the pair is
processed.  Returns the processed (foci, companion) pairs in loop order. -/
def foci_companion_loop (isfile : Str → Bool) (nuclei_files : List Str) :
    List Str → List (Str × Str)
  | [] => []
  | name :: rest =>
    if isfile name then
      match extract_common_part name with
      | none => foci_companion_loop isfile nuclei_files rest
      | some common =>
        if companion_name common ∈ nuclei_files then
          (name, companion_name common) ::
            foci_companion_loop isfile nuclei_files rest
        else foci_companion_loop isfile nuclei_files rest
    else foci_companion_loop isfile nuclei_files rest

/-! ## C6: the image_metadata.txt round trip -/

/-- One image entry of `image_metadata.txt` as written by stage 1
(1_select_channels.py 237-246): the image file name and the printed tokens
for pixel width/height/depth, unit, channels, slices, frames. -/
structure MetaEntry where
  name : Str
  w : Str
  h : Str
  dep : Str
  u : Str
  chs : Str
  sls : Str
  frs : Str
deriving DecidableEq

/-- The calibration data accumulated for one entry by `parse_metadata_file`
(3_filter_imgs.py 34-36): the `pixel_width`/`pixel_height`/`pixel_depth`/
`unit` values, each absent until its line is seen. -/
structure PData where
  w : Option Str
  h : Option Str
  dep : Option Str
  u : Option Str
deriving DecidableEq

/-- The fresh `current_data = {}` dictionary. -/
def emptyPD : PData := ⟨none, none, none, none⟩

/-- The data parsed back from a complete entry. -/
def fullPD (e : MetaEntry) : PData := ⟨some e.w, some e.h, some e.dep, some e.u⟩

/-- The lines stage 1 writes for one image entry
(1_select_channels.py 237-246), final blank line included. -/
def entryLines (e : MetaEntry) : List Str :=
  [("Image Name: ").toList ++ e.name,
   ("  Pixel Width: ").toList ++ e.w,
   ("  Pixel Height: ").toList ++ e.h,
   ("  Pixel Depth: ").toList ++ e.dep,
   ("  Unit: ").toList ++ e.u,
   ("  Channels: ").toList ++ e.chs,
   ("  Slices: ").toList ++ e.sls,
   ("  Frames: ").toList ++ e.frs,
   []]

/-- Join lines into file text, terminating each with `'\n'`. -/
def joinln (ls : List Str) : Str := ls.flatMap fun l => l ++ ['\n']

/-- The text `process_image` writes for one entry. -/
def writeEntry (e : MetaEntry) : Str := joinln (entryLines e)

/-- The full `image_metadata.txt` contents: the fixed header
(1_select_channels.py 186-187) followed by one block per image. -/
def metadata_file_text (es : List MetaEntry) : Str :=
  ("Image Metadata:\n================\n").toList ++ es.flatMap writeEntry

/-- Python `dict` assignment `d[k] = v`: replace in place when the key
exists, append otherwise. -/
def dictInsert (k : Str) (v : PData) : List (Str × PData) → List (Str × PData)
  | [] => [(k, v)]
  | p :: rest => if p.1 = k then (k, v) :: rest else p :: dictInsert k v rest

/-- The store-previous-entry step of `parse_metadata_file`
(3_filter_imgs.py 47-50 and 77-80): push `current_data` under the base name
(`os.path.splitext`) of `current_name` when both are truthy. -/
def pushEntry (d : List (Str × PData)) (cn : Option Str) (cd : PData) :
    List (Str × PData) :=
  match cn with
  | some n => if n ≠ [] ∧ cd ≠ emptyPD then dictInsert (splitext n).1 cd d else d
  | none => d

/-- `parse_metadata_file` (3_filter_imgs.py 12-82), its line machine: strip
each line, dispatch on the `startswith` prefix chain, strip the globally
`str.replace`-d remainder as the value; a new `Image Name:` line (or the end
of the file) stores the previous entry.  `d`, `cn`, `cd` are
`metadata_dict`, `current_name`, `current_data`; the initial call passes
`[]`, `none`, `emptyPD`. -/
def parse_metadata_file (d : List (Str × PData)) (cn : Option Str)
    (cd : PData) : List Str → List (Str × PData)
  | [] => pushEntry d cn cd
  | line :: rest =>
    if (("Image Name:").toList).isPrefixOf (pyStrip line) then
      parse_metadata_file (pushEntry d cn cd)
        (some (pyStrip (replaceAll (pyStrip line) (("Image Name:").toList) [])))
        emptyPD rest
    else if (("Pixel Width:").toList).isPrefixOf (pyStrip line) then
      parse_metadata_file d cn
        { cd with w := some (pyStrip (replaceAll (pyStrip line)
            (("Pixel Width:").toList) [])) } rest
    else if (("Pixel Height:").toList).isPrefixOf (pyStrip line) then
      parse_metadata_file d cn
        { cd with h := some (pyStrip (replaceAll (pyStrip line)
            (("Pixel Height:").toList) [])) } rest
    else if (("Pixel Depth:").toList).isPrefixOf (pyStrip line) then
      parse_metadata_file d cn
        { cd with dep := some (pyStrip (replaceAll (pyStrip line)
            (("Pixel Depth:").toList) [])) } rest
    else if (("Unit:").toList).isPrefixOf (pyStrip line) then
      parse_metadata_file d cn
        { cd with u := some (pyStrip (replaceAll (pyStrip line)
            (("Unit:").toList) [])) } rest
    else parse_metadata_file d cn cd rest

/-- `find_metadata_for_file` (3_filter_imgs.py 85-99): return the value of
the first key, in dictionary (insertion) order, that is a substring of the
filename. -/
def find_metadata_for_file (filename : Str) :
    List (Str × PData) → Option PData
  | [] => none
  | p :: rest =>
    if occursIn p.1 filename then some p.2
    else find_metadata_for_file filename rest

/-- Attempt to match the regex `(\d+\.\d+)` at the start of `s`, returning
the captured group (greedy digit runs around a literal dot). -/
def matchNumAt (s : Str) : Option Str :=
  match s.dropWhile Char.isDigit with
  | '.' :: r2 =>
    if (s.takeWhile Char.isDigit).isEmpty ||
        (r2.takeWhile Char.isDigit).isEmpty then none
    else some (s.takeWhile Char.isDigit ++ '.' :: r2.takeWhile Char.isDigit)
  | _ => none

/-- Attempt to match the regex `(\w+)` at the start of `s`. -/
def matchWordAt (s : Str) : Option Str :=
  if (s.takeWhile fun c => c.isAlphanum || c = '_').isEmpty then none
  else some (s.takeWhile fun c => c.isAlphanum || c = '_')

/-- `re.search` for a literal followed by a captured group: the group
matched at the leftmost position where the literal and the group match. -/
def searchLit (m : Str → Option Str) (lit : Str) : Str → Option Str
  | [] => none
  | c :: rest =>
    match (if lit.isPrefixOf (c :: rest) then m ((c :: rest).drop lit.length)
      else none) with
    | some v => some v
    | none => searchLit m lit rest

/-- The tail of one entry's block (everything after the name's line break). -/
def blockTail (e : MetaEntry) : Str :=
  ("  Pixel Width: ").toList ++ e.w ++ ("\n  Pixel Height: ").toList ++ e.h ++
  ("\n  Pixel Depth: ").toList ++ e.dep ++ ("\n  Unit: ").toList ++ e.u ++
  ("\n  Channels: ").toList ++ e.chs ++ ("\n  Slices: ").toList ++ e.sls ++
  ("\n  Frames: ").toList ++ e.frs ++ ("\n\n").toList

/-- The piece of `content.split("Image Name: ")` corresponding to one
entry. -/
def entryBlock (e : MetaEntry) : Str := e.name ++ '\n' :: blockTail e

/-- The per-block step of `extract_metadata` (4_foci_quantification.py
163-177): regex-search the four values in the block; when all four match,
store them under the base name of the block's first line. -/
def extractBlockStep (d : List (Str × PData)) (block : Str) :
    List (Str × PData) :=
  match searchLit matchNumAt (("Pixel Width: ").toList) block,
      searchLit matchNumAt (("Pixel Height: ").toList) block,
      searchLit matchNumAt (("Pixel Depth: ").toList) block,
      searchLit matchWordAt (("Unit: ").toList) block with
  | some w, some h, some dep, some u =>
    dictInsert (splitext (pyStrip ((splitLines block).headD []))).1
      ⟨some w, some h, some dep, some u⟩ d
  | _, _, _, _ => d

/-- `extract_metadata` (4_foci_quantification.py 151-178): split the file
contents on the literal `"Image Name: "`, drop the part before the first
entry, and process each block. -/
def extract_metadata (content : Str) : List (Str × PData) :=
  ((splitOnSub (("Image Name: ").toList) content).drop 1).foldl
    extractBlockStep []

/-- A value token as stage 1 prints it: non-empty, no whitespace, no colon
(pixel sizes, units and counts all satisfy this). -/
def tokClean (s : Str) : Bool :=
  !s.isEmpty && s.all (fun c => !c.isWhitespace) && !decide (':' ∈ s)

/-- A string unchanged by `str.strip()`: non-empty with non-whitespace first
and last characters. -/
def stripClean (s : Str) : Bool :=
  !s.isEmpty && decide (s.dropWhile Char.isWhitespace = s) &&
    decide (s.reverse.dropWhile Char.isWhitespace = s.reverse)

/-- A well-formed image file name for the metadata round trip: strip-stable,
free of line breaks, and not containing the `Image Name:` marker. -/
def nameWF (s : Str) : Bool :=
  stripClean s && !occursIn (("Image Name:").toList) s &&
    !decide ('\n' ∈ s)

/-- Well-formedness of one entry's tokens. -/
def entryWF (e : MetaEntry) : Bool :=
  nameWF e.name && tokClean e.w && tokClean e.h && tokClean e.dep &&
    tokClean e.u && tokClean e.chs && tokClean e.sls && tokClean e.frs

/-- Metadata entry of an image `b.tif` (counterexample instance). -/
def exMetaB : MetaEntry :=
  ⟨("b.tif").toList, ("0.25").toList, ("0.25").toList, ("1.0").toList,
   ("micron").toList, ("3").toList, ("1").toList, ("1").toList⟩

/-- Metadata entry of an image `ab.tif` (counterexample instance). -/
def exMetaAB : MetaEntry :=
  ⟨("ab.tif").toList, ("0.5").toList, ("0.5").toList, ("2.0").toList,
   ("micron").toList, ("3").toList, ("1").toList, ("1").toList⟩

/-! ## Concrete instances used by counterexamples and witnesses -/

/-- A 1×3 nuclei mask: one nucleus, labeled 1, covering the whole row. -/
def exNuc : Img := mkImg [[1, 1, 1]]

/-- A 1×3 foci mask: a single focus label 1 on two disconnected pixels. -/
def exFoci : Img := mkImg [[1, 0, 1]]

/-! # Theorems

First a stock of shared lemmas, then one theorem (plus witness or
counterexample) per claim. -/

/-! ### Lemmas about `replaceAll` -/

theorem replaceAllF_fuel (pat repl : Str) :
    ∀ n m s, s.length ≤ n → s.length ≤ m →
      replaceAllF pat repl n s = replaceAllF pat repl m s := by
  intro n
  induction n with
  | zero =>
    intro m s hs _
    have : s = [] := List.eq_nil_of_length_eq_zero (Nat.le_zero.mp hs)
    subst this
    cases m <;> rfl
  | succ n ih =>
    intro m s hs hm
    cases s with
    | nil => cases m <;> rfl
    | cons c rest =>
      cases m with
      | zero => exact absurd hm (by simp)
      | succ m' =>
        simp only [replaceAllF]
        split
        · next hguard =>
          rw [Bool.and_eq_true] at hguard
          have hplen : 1 ≤ pat.length := by
            cases pat with
            | nil => simp at hguard
            | cons _ _ => simp
          have hlen1 : (c :: rest).length = rest.length + 1 := by simp
          have hdrop : ((c :: rest).drop pat.length).length ≤ n := by
            rw [List.length_drop]
            simp only [hlen1]
            simp only [List.length_cons] at hs
            omega
          have hdrop' : ((c :: rest).drop pat.length).length ≤ m' := by
            rw [List.length_drop]
            simp only [hlen1]
            simp only [List.length_cons] at hm
            omega
          rw [ih m' _ hdrop hdrop']
        · have h1 : rest.length ≤ n := by simp at hs; omega
          have h2 : rest.length ≤ m' := by simp at hm; omega
          rw [ih m' rest h1 h2]

theorem replaceAll_match (pat repl s : Str) (hpat : pat ≠ [])
    (h : pat.isPrefixOf s = true) :
    replaceAll s pat repl = repl ++ replaceAll (s.drop pat.length) pat repl := by
  cases s with
  | nil =>
    cases pat with
    | nil => exact absurd rfl hpat
    | cons _ _ => simp [List.isPrefixOf] at h
  | cons c rest =>
    show replaceAllF pat repl (rest.length + 1) (c :: rest) = _
    have hne : pat.isEmpty = false := by
      cases pat with
      | nil => exact absurd rfl hpat
      | cons _ _ => rfl
    have hplen : 1 ≤ pat.length := by
      cases pat with
      | nil => exact absurd rfl hpat
      | cons _ _ => simp
    simp only [replaceAllF, h, hne, Bool.not_false, Bool.and_self, if_true]
    congr 1
    apply replaceAllF_fuel
    · rw [List.length_drop]
      simp only [List.length_cons]
      omega
    · exact le_refl _

theorem replaceAll_nomatch (pat repl : Str) (c : Char) (rest : Str)
    (h : ¬ pat.isPrefixOf (c :: rest) = true) :
    replaceAll (c :: rest) pat repl = c :: replaceAll rest pat repl := by
  show replaceAllF pat repl (rest.length + 1) (c :: rest) = _
  have hfalse : pat.isPrefixOf (c :: rest) = false := by
    cases hpp : pat.isPrefixOf (c :: rest) with
    | false => rfl
    | true => exact absurd hpp h
  simp only [replaceAllF, hfalse, Bool.false_and, if_neg (Bool.false_ne_true)]
  rfl

theorem not_mem_replaceAll_single (b : Char) (repl : Str) (hb : b ∉ repl) :
    ∀ s : Str, b ∉ replaceAll s [b] repl := by
  intro s
  induction s with
  | nil => simp [replaceAll, replaceAllF]
  | cons c rest ih =>
    by_cases hc : c = b
    · subst hc
      have hpre : ([c] : Str).isPrefixOf (c :: rest) = true := by
        simp [List.isPrefixOf]
      rw [show ([c] : Str) = [c] from rfl] at hpre
      have := replaceAll_match [c] repl (c :: rest) (by simp) hpre
      simp only [List.length_cons, List.length_nil] at this
      rw [this]
      intro hmem
      rcases List.mem_append.mp hmem with h1 | h2
      · exact hb h1
      · simp only [List.drop_succ_cons, List.drop_zero] at h2
        exact ih h2
    · have hpre : ¬ ([b] : Str).isPrefixOf (c :: rest) = true := by
        simp [List.isPrefixOf]
        intro hcb
        exact hc (by cases hcb; rfl)
      rw [replaceAll_nomatch [b] repl c rest hpre]
      intro hmem
      rcases List.mem_cons.mp hmem with h1 | h2
      · exact hc h1.symm
      · exact ih h2

theorem replaceAll_single_append_clean (b : Char) (repl : Str) (u v : Str)
    (hu : b ∉ u) :
    replaceAll (u ++ v) [b] repl = u ++ replaceAll v [b] repl := by
  induction u with
  | nil => simp
  | cons c rest ih =>
    have hc : c ≠ b := fun h => hu (h ▸ List.mem_cons_self c rest)
    have hpre : ¬ ([b] : Str).isPrefixOf (c :: (rest ++ v)) = true := by
      simp [List.isPrefixOf]
      intro hcb
      exact hc (by cases hcb; rfl)
    calc replaceAll ((c :: rest) ++ v) [b] repl
        = c :: replaceAll (rest ++ v) [b] repl := replaceAll_nomatch _ _ _ _ hpre
      _ = c :: (rest ++ replaceAll v [b] repl) := by
          rw [ih (fun h => hu (List.mem_cons_of_mem c h))]
      _ = (c :: rest) ++ replaceAll v [b] repl := rfl

/-! ### Claim C4 -/

/-- Claim C4, counterexample: the claim says a no answer at every interactive
confirmation prompt raises an exception.  At stage 5's graph-generation
prompt (5_graph_representation.py 220-225, one of the claim's own cited
sources), answering no logs a warning and returns normally: no exception is
raised. -/
theorem c4_counterexample :
    stage5_prompt ("no".toList) = PromptOutcome.cancelReturn
    ∧ (stage5_prompt ("no".toList)).raises = false := by
  decide

/-- Claim C4 (amended): a no answer at a confirmation prompt always stops the
run, but not always by an exception.  The prompts of stages 1-4 (including
the overwrite confirmations and the Step1.py variants) raise `ValueError`,
and the cancellation prompt of 4_calculate_nuc_foci.py calls `exit()`
(raising `SystemExit`); but the Step3.py prompt and the stage-5 graphing
prompt cancel by returning normally, without raising any exception. -/
theorem c4_no_answer_behaviour :
    select_channel_name_prompt ("no".toList)
        = PromptOutcome.raiseValueError "Analysis canceled by user."
    ∧ stage1_overwrite_prompt ("no".toList)
        = PromptOutcome.raiseValueError "Analysis canceled by user."
    ∧ main_analyze_nuclei_prompt ("no".toList)
        = PromptOutcome.raiseValueError "Analysis canceled by user."
    ∧ process_nuclei_overwrite_prompt ("no".toList)
        = PromptOutcome.raiseValueError "Analysis canceled by user."
    ∧ main_filter_imgs_prompt ("no".toList)
        = PromptOutcome.raiseValueError "Analysis canceled by user."
    ∧ main_filter_foci_prompt ("no".toList)
        = PromptOutcome.raiseValueError "Analysis canceled by user."
    ∧ main_summarize_res_prompt ("no".toList)
        = PromptOutcome.raiseValueError "Processing canceled by user."
    ∧ step1_prompt ("no".toList)
        = PromptOutcome.raiseValueError "Analysis canceled by user"
    ∧ step1_overwrite_prompt ("no".toList)
        = PromptOutcome.raiseValueError "Analysis canceled by user"
    ∧ calc_nuc_foci_prompt ("no".toList) = PromptOutcome.raiseSystemExit
    ∧ step3_prompt ("no".toList) = PromptOutcome.cancelReturn
    ∧ stage5_prompt ("no".toList) = PromptOutcome.cancelReturn := by
  decide

/-! ### Claim C8 -/

theorem foci_channels_check_ok (fcs : List Int) :
    ∀ i, foci_channels_check i fcs = .ok () ↔ ∀ c ∈ fcs, 1 ≤ c ∧ c ≤ 12 := by
  induction fcs with
  | nil => intro i; simp [foci_channels_check]
  | cons c rest ih =>
    intro i
    simp only [foci_channels_check]
    split
    · next hbad =>
      constructor
      · intro h; exact absurd h (by simp)
      · intro h; exact absurd (h c (List.mem_cons_self c rest)) hbad
    · next hok =>
      rw [ih (i + 1)]
      constructor
      · intro h
        intro x hx
        rcases List.mem_cons.mp hx with h1 | h2
        · subst h1; exact not_not.mp hok
        · exact h x h2
      · intro h x hx
        exact h x (List.mem_cons_of_mem c hx)

theorem stage1_param_check_ok_iff (ft nc nf : Int) (fcs : List Int) :
    stage1_param_check ft nc nf fcs = .ok () ↔
      ((ft = 1 ∨ ft = 2 ∨ ft = 3) ∧ (1 ≤ nc ∧ nc ≤ 12) ∧ 1 ≤ nf
        ∧ ∀ c ∈ fcs, 1 ≤ c ∧ c ≤ 12) := by
  unfold stage1_param_check
  split
  · next hft =>
    constructor
    · intro h; exact absurd h (by simp)
    · intro h; exact absurd h.1 hft
  · next hft =>
    split
    · next hnc =>
      constructor
      · intro h; exact absurd h (by simp)
      · intro h; exact absurd h.2.1 hnc
    · next hnc =>
      split
      · next hnf =>
        constructor
        · intro h; exact absurd h (by simp)
        · intro h; omega
      · next hnf =>
        rw [foci_channels_check_ok fcs 0]
        constructor
        · intro h
          exact ⟨not_not.mp hft, not_not.mp hnc, by omega, h⟩
        · intro h; exact h.2.2.2

/-- Claim C8: `process_image`'s interactive parameter validation accepts a
parameter combination precisely when the file type is 1, 2 or 3, the nuclei
channel is in 1..12, the number of foci channels is at least 1 and every foci
channel is in 1..12; any violation makes it raise a `ValueError`.  The list
`fcs` holds the foci channel numbers read by the loop, one per requested
channel. -/
theorem c8_param_validation (ft nc nf : Int) (fcs : List Int)
    (hlen : fcs.length = nf.toNat) :
    (stage1_param_check ft nc nf fcs = .ok () ↔
      ((ft = 1 ∨ ft = 2 ∨ ft = 3) ∧ (1 ≤ nc ∧ nc ≤ 12) ∧ 1 ≤ nf
        ∧ ∀ c ∈ fcs, 1 ≤ c ∧ c ≤ 12))
    ∧ (¬ ((ft = 1 ∨ ft = 2 ∨ ft = 3) ∧ (1 ≤ nc ∧ nc ≤ 12) ∧ 1 ≤ nf
          ∧ ∀ c ∈ fcs, 1 ≤ c ∧ c ≤ 12) →
        ∃ msg, stage1_param_check ft nc nf fcs = .error msg) := by
  refine ⟨stage1_param_check_ok_iff ft nc nf fcs, fun hbad => ?_⟩
  cases h : stage1_param_check ft nc nf fcs with
  | ok u =>
    cases u
    exact absurd ((stage1_param_check_ok_iff ft nc nf fcs).mp h) hbad
  | error msg => exact ⟨msg, rfl⟩

/-- Witness for C8 at the concrete parameters file type 1, nuclei channel 5,
two foci channels 3 and 4. -/
theorem c8_witness : stage1_param_check 1 5 2 [3, 4] = .ok () :=
  ((c8_param_validation 1 5 2 [3, 4] (by decide)).1).mpr (by decide)

/-! ### Claim C10 -/

/-- Claim C10, counterexample: the claim describes the rewrite as replacing
the leading `C:\`, but `path.replace('C:\\', '/mnt/c/')` replaces every
occurrence.  With first path `C:\a` (so rewriting triggers) and second path
`b C:\c`, the code produces `b /mnt/c/c`, while the claim's
leading-occurrence rewrite would give `b C:/c`. -/
theorem c10_counterexample :
    validate_path_files_paths ["C:\\a".toList, "b C:\\c".toList]
      = ["/mnt/c/a".toList, "b /mnt/c/c".toList]
    ∧ "b /mnt/c/c".toList ≠ "b C:/c".toList := by
  constructor
  · rfl
  · decide

/-- Claim C10 (amended): `validate_path_files` applies the rewrite (strip
whitespace, replace every occurrence of `C:\` with `/mnt/c/`, replace every
backslash with `/`) to every path if and only if the first path starts with
`C:\`; otherwise every path is used exactly as given, even if later paths
are Windows-style.  When a rewritten path (after stripping) starts with
`C:\`, its rewritten form starts with `/mnt/c/`, and rewritten paths contain
no backslash. -/
theorem c10_wsl_rewrite (ps : List Str) (p0 : Str) (rest : List Str)
    (hps : ps = p0 :: rest) :
    (¬ ("C:\\".toList).isPrefixOf p0 = true → validate_path_files_paths ps = ps)
    ∧ (("C:\\".toList).isPrefixOf p0 = true →
        validate_path_files_paths ps = ps.map wsl_path_rewrite)
    ∧ (∀ p, ("C:\\".toList).isPrefixOf (pyStrip p) = true →
        ("/mnt/c/".toList) <+: wsl_path_rewrite p)
    ∧ (∀ p, ('\\' : Char) ∉ wsl_path_rewrite p) := by
  subst hps
  refine ⟨?_, ?_, ?_, ?_⟩
  · intro h
    simp only [validate_path_files_paths]
    rw [if_neg h]
  · intro h
    simp only [validate_path_files_paths]
    rw [if_pos h]
  · intro p hp
    unfold wsl_path_rewrite
    rw [replaceAll_match ("C:\\".toList) ("/mnt/c/".toList) (pyStrip p) (by decide) hp]
    have hclean : ('\\' : Char) ∉ ("/mnt/c/".toList) := by decide
    have hsingle : ("\\".toList : Str) = ['\\'] := by decide
    rw [hsingle]
    rw [replaceAll_single_append_clean ('\\') ("/".toList) ("/mnt/c/".toList) _ hclean]
    exact List.prefix_append _ _
  · intro p
    unfold wsl_path_rewrite
    have hsingle : ("\\".toList : Str) = ['\\'] := by decide
    rw [hsingle]
    exact not_mem_replaceAll_single ('\\') ("/".toList) (by decide) _

/-- Witness for C10 at a concrete two-path list whose first path is
Windows-style. -/
theorem c10_witness :
    validate_path_files_paths ["C:\\a".toList, "x\\y".toList]
      = ["C:\\a".toList, "x\\y".toList].map wsl_path_rewrite
    ∧ ("/mnt/c/".toList) <+: wsl_path_rewrite ("C:\\a".toList) :=
  ⟨(c10_wsl_rewrite _ _ _ rfl).2.1 (by decide),
   (c10_wsl_rewrite ["C:\\a".toList, "x\\y".toList] _ _ rfl).2.2.1 _ (by decide)⟩

/-! ### Counting lemmas for the stage-4 overlap statistics -/

theorem le_foldl_max (l : List Nat) (a : Nat) :
    (∀ x ∈ l, x ≤ l.foldl max a) ∧ a ≤ l.foldl max a := by
  induction l generalizing a with
  | nil => exact ⟨by simp, le_refl a⟩
  | cons b rest ih =>
    refine ⟨?_, ?_⟩
    · intro x hx
      rcases List.mem_cons.mp hx with h | h
      · subst h
        show x ≤ rest.foldl max (max a x)
        exact le_trans (le_max_right a x) (ih (max a x)).2
      · exact (ih (max a b)).1 x h
    · show a ≤ rest.foldl max (max a b)
      exact le_trans (le_max_left a b) (ih (max a b)).2

theorem px_le_img_max (m : Img) (p : Nat × Nat) (hp : p ∈ posList m) :
    m.px p.1 p.2 ≤ img_max m :=
  (le_foldl_max ((posList m).map fun q => m.px q.1 q.2) 0).1 _
    (List.mem_map.mpr ⟨p, hp, rfl⟩)

theorem length_filter_cons {α : Type} (p : α → Bool) (x : α) (xs : List α) :
    (List.filter p (x :: xs)).length
      = (if p x = true then 1 else 0) + (List.filter p xs).length := by
  rw [List.filter_cons]
  split <;> simp [Nat.add_comm]

theorem list_range_sum (B : Nat) (f : Nat → Nat) :
    ((List.range B).map f).sum = ∑ v ∈ Finset.range B, f v := rfl

theorem sum_indicator_range (B x0 : Nat) (hx : x0 < B) (k : Nat) :
    (∑ v ∈ Finset.range B, if v = x0 then k else 0) = k := by
  rw [Finset.sum_ite_eq' (Finset.range B) x0 (fun _ => k)]
  rw [if_pos (Finset.mem_range.mpr hx)]

theorem sum_hist_fibers (l : List (Nat × Nat)) (g : (Nat × Nat) → Nat) (B : Nat)
    (hb : ∀ x ∈ l, g x < B) :
    ((List.range B).map fun v =>
        (l.filter fun x => decide (g x = v) && decide (g x ≠ 0)).length).sum
      = (l.filter fun x => decide (g x ≠ 0)).length := by
  induction l with
  | nil => simp
  | cons x xs ih =>
    have hx : g x < B := hb x (List.mem_cons_self x xs)
    have hxs : ∀ y ∈ xs, g y < B := fun y hy => hb y (List.mem_cons_of_mem x hy)
    rw [list_range_sum]
    calc (∑ v ∈ Finset.range B,
            ((x :: xs).filter fun y => decide (g y = v) && decide (g y ≠ 0)).length)
        = ∑ v ∈ Finset.range B,
            ((if (decide (g x = v) && decide (g x ≠ 0)) = true then 1 else 0)
              + ((xs.filter fun y => decide (g y = v) && decide (g y ≠ 0)).length)) :=
          Finset.sum_congr rfl fun v _ => length_filter_cons _ x xs
      _ = (∑ v ∈ Finset.range B,
            (if (decide (g x = v) && decide (g x ≠ 0)) = true then 1 else 0))
          + ∑ v ∈ Finset.range B,
              ((xs.filter fun y => decide (g y = v) && decide (g y ≠ 0)).length) :=
          Finset.sum_add_distrib
      _ = (∑ v ∈ Finset.range B,
            (if (decide (g x = v) && decide (g x ≠ 0)) = true then 1 else 0))
          + (xs.filter fun y => decide (g y ≠ 0)).length := by
          congr 1
          rw [← list_range_sum]
          exact ih hxs
      _ = (if decide (g x ≠ 0) = true then 1 else 0)
          + (xs.filter fun y => decide (g y ≠ 0)).length := by
          congr 1
          by_cases hgx : g x = 0
          · have h1 : decide (g x ≠ 0) = false := by simp [hgx]
            rw [h1]
            simp only [Bool.and_false, if_neg (Bool.false_ne_true)]
            simp
          · have h1 : decide (g x ≠ 0) = true := by simp [hgx]
            rw [h1]
            simp only [Bool.and_true, if_pos rfl]
            calc (∑ v ∈ Finset.range B, if decide (g x = v) = true then 1 else 0)
                = ∑ v ∈ Finset.range B, if v = g x then 1 else 0 :=
                  Finset.sum_congr rfl fun v _ => by
                    by_cases hv : g x = v
                    · subst hv; simp
                    · have hv' : ¬ v = g x := fun hc => hv hc.symm
                      simp [hv, hv']
              _ = 1 := sum_indicator_range B (g x) hx 1
      _ = ((x :: xs).filter fun y => decide (g y ≠ 0)).length :=
          (length_filter_cons (fun y => decide (g y ≠ 0)) x xs).symm

theorem count_hist_fibers (l : List (Nat × Nat)) (g : (Nat × Nat) → Nat) (B : Nat)
    (hb : ∀ x ∈ l, g x < B) :
    ((List.range B).filter fun v =>
        decide ((l.filter fun x => decide (g x = v) && decide (g x ≠ 0)).length ≠ 0)).length
      = ((l.filter fun x => decide (g x ≠ 0)).map g).dedup.length := by
  have hnodup : ((List.range B).filter fun v =>
      decide ((l.filter fun x => decide (g x = v) && decide (g x ≠ 0)).length ≠ 0)).Nodup :=
    (List.nodup_range B).filter _
  rw [← List.Nodup.dedup hnodup, ← List.card_toFinset, ← List.card_toFinset]
  congr 1
  apply Finset.ext
  intro v
  rw [List.mem_toFinset, List.mem_toFinset, List.mem_filter, List.mem_map]
  constructor
  · rintro ⟨hvB, hq⟩
    have hne : (l.filter fun x => decide (g x = v) && decide (g x ≠ 0)).length ≠ 0 :=
      of_decide_eq_true hq
    have hpos : l.filter (fun x => decide (g x = v) && decide (g x ≠ 0)) ≠ [] := by
      intro hnil
      exact hne (by rw [hnil]; rfl)
    rcases List.exists_mem_of_ne_nil _ hpos with ⟨x, hx⟩
    rcases List.mem_filter.mp hx with ⟨hxl, hfx⟩
    rw [Bool.and_eq_true] at hfx
    exact ⟨x, List.mem_filter.mpr ⟨hxl, hfx.2⟩, of_decide_eq_true hfx.1⟩
  · rintro ⟨x, hx, hgx⟩
    rcases List.mem_filter.mp hx with ⟨hxl, hx0⟩
    refine ⟨List.mem_range.mpr (hgx ▸ hb x hxl), decide_eq_true ?_⟩
    intro hlen
    have hnil : l.filter (fun y => decide (g y = v) && decide (g y ≠ 0)) = [] :=
      List.eq_nil_of_length_eq_zero hlen
    have hmem : x ∈ l.filter (fun y => decide (g y = v) && decide (g y ≠ 0)) :=
      List.mem_filter.mpr ⟨hxl, by rw [Bool.and_eq_true]; exact ⟨decide_eq_true hgx, hx0⟩⟩
    rw [hnil] at hmem
    exact absurd hmem (List.not_mem_nil x)

theorem hist2d_eq_filter (ln lf : Img) (N : Nat) (hN : N ≠ 0) (v : Nat) :
    hist2d ln lf N v
      = (((posList ln).filter fun p => decide (ln.px p.1 p.2 = N)).filter
          fun p => decide (lf.px p.1 p.2 = v) && decide (lf.px p.1 p.2 ≠ 0)).length := by
  unfold hist2d
  rw [List.filter_filter]
  congr 1
  apply List.filter_congr
  intro p _
  by_cases hA : ln.px p.1 p.2 = N
  · simp [hA, hN, Bool.and_assoc, Bool.and_comm, Bool.and_left_comm]
  · simp [hA]

theorem measure_label_ne_zero (m : Img) (i j : Nat) :
    (measure_label m).px i j ≠ 0 ↔ m.px i j ≠ 0 := by
  unfold measure_label
  by_cases h : m.px i j = 0 <;> simp [h]

/-- Shared workhorse for C1 and C2: for one nonzero nucleus label `N`, the
histogram-row statistics of the fast implementation equal the direct
region-scanning counts. -/
theorem fast_row_stats (nm fm : Img) (hsh : nm.h = fm.h ∧ nm.w = fm.w)
    (N : Nat) (hN0 : N ≠ 0) :
    ((List.filter (fun c => decide (c ≠ 0))
        ((List.range (img_max (measure_label fm) + 1)).map fun l =>
          hist2d (measure_label nm) (measure_label fm) N l))).length
      = ((((posList (measure_label nm)).filter
            (fun p => decide ((measure_label nm).px p.1 p.2 = N))).filter
              (fun p => decide ((measure_label fm).px p.1 p.2 ≠ 0))).map
          (fun p => (measure_label fm).px p.1 p.2)).dedup.length
    ∧ ((List.range (img_max (measure_label fm) + 1)).map fun l =>
          hist2d (measure_label nm) (measure_label fm) N l).sum
      = (((posList (measure_label nm)).filter
          (fun p => decide ((measure_label nm).px p.1 p.2 = N))).filter
            (fun p => decide ((measure_label fm).px p.1 p.2 ≠ 0))).length := by
  have hpos : posList (measure_label fm) = posList (measure_label nm) := by
    show posListHW fm.h fm.w = posListHW nm.h nm.w
    rw [hsh.1, hsh.2]
  have hb : ∀ p ∈ (posList (measure_label nm)).filter
      (fun p => decide ((measure_label nm).px p.1 p.2 = N)),
      (fun p : Nat × Nat => (measure_label fm).px p.1 p.2) p
        < img_max (measure_label fm) + 1 := by
    intro p hp
    have hmem : p ∈ posList (measure_label nm) := (List.mem_filter.mp hp).1
    rw [← hpos] at hmem
    exact Nat.lt_succ_of_le (px_le_img_max (measure_label fm) p hmem)
  constructor
  · rw [List.filter_map, List.length_map]
    simp only [hist2d_eq_filter (measure_label nm) (measure_label fm) N hN0]
    exact count_hist_fibers _ _ _ hb
  · simp only [hist2d_eq_filter (measure_label nm) (measure_label fm) N hN0]
    exact sum_hist_fibers _ _ _ hb

/-! ### Claim C2 -/

/-- Claim C2: on every pair of masks the fast 2D-histogram implementation of
`count_foci_in_nuclei` computes exactly the same result — the same error on
shape mismatch and, per nucleus, the same foci count, areas and relative
area — as the per-nucleus-loop reference that scans the foci mask for the
labels overlapping each nucleus. -/
theorem c2_fast_histogram_eq_loop (nm fm : Img) (pa : ℚ) (key : Str) :
    count_foci_in_nuclei nm fm pa key = count_foci_in_nuclei_loop nm fm pa key := by
  unfold count_foci_in_nuclei count_foci_in_nuclei_loop
  by_cases hsh : nm.h = fm.h ∧ nm.w = fm.w
  · rw [if_neg (not_not.mpr hsh), if_neg (not_not.mpr hsh)]
    simp only []
    congr 1
    apply List.map_congr_left
    intro N hN
    have hN0 : N ≠ 0 := of_decide_eq_true (List.mem_filter.mp hN).2
    have hA := (fast_row_stats nm fm hsh N hN0).1
    have hB := (fast_row_stats nm fm hsh N hN0).2
    congr 1 <;> first
      | rfl
      | simp only [hA, hB, regionArea]
  · rw [if_pos hsh, if_pos hsh]

/-! ### Claim C1 -/

/-- Claim C1, counterexample: the claim says the reported `Foci Count` of a
nucleus is the number of distinct foci labels of the input mask sharing a
pixel with it.  On the 1×3 masks `exNuc = [[1,1,1]]`, `exFoci = [[1,0,1]]`
only one distinct input foci label (1) overlaps the nucleus, but the code
relabels the foci mask by connectivity (`measure.label`) and reports a foci
count of 2 — the two disconnected pixels of input label 1 count separately. -/
theorem c1_counterexample :
    ((count_foci_in_nuclei exNuc exFoci 1 []).toOption.map fun rows =>
        rows.map fun r => (r.nucleus, r.foci_count, r.nucleus_area_px, r.total_foci_px))
      = some [(1, 2, 3, 2)]
    ∧ (((posListHW 1 3).filter fun p =>
          decide (exNuc.px p.1 p.2 = 1) && decide (exFoci.px p.1 p.2 ≠ 0)).map fun p =>
            exFoci.px p.1 p.2).dedup.length = 1 := by
  decide

/-- Claim C1 (amended): `count_foci_in_nuclei` raises `ValueError` when the
two masks differ in shape.  On equally shaped non-empty masks (NumPy raises
on zero-size masks because of `labeled.max()`), it reports one row per
connected component of the nuclei mask (the components computed by
`measure.label`, numbered as `rows.map nucleus` lists them), and for the row
of component `N`: `Foci Count` is the number of distinct foci connected
components (labels of `measure.label` of the foci mask) sharing at least one
pixel with `N`; `Total Foci Area (pixels)` is the number of pixels at which
the nucleus component label is `N` and the input foci mask is nonzero;
`Relative Foci Area (%)` is 100 times the total foci area divided by the
nucleus pixel area (0 when that area is 0). -/
theorem c1_count_foci_per_component (nm fm : Img) (pa : ℚ) (key : Str) :
    (¬ (nm.h = fm.h ∧ nm.w = fm.w) →
      count_foci_in_nuclei nm fm pa key
        = .error "Nuclei mask and foci mask must have the same shape.")
    ∧ ((nm.h = fm.h ∧ nm.w = fm.w) → 0 < nm.h → 0 < nm.w →
      ∃ rows, count_foci_in_nuclei nm fm pa key = .ok rows
        ∧ rows.map (fun r => r.nucleus) = uniqueNonzero (measure_label nm)
        ∧ ∀ r ∈ rows,
            r.foci_count = (((posList (measure_label nm)).filter fun p =>
                decide ((measure_label nm).px p.1 p.2 = r.nucleus)
                  && decide ((measure_label fm).px p.1 p.2 ≠ 0)).map fun p =>
                (measure_label fm).px p.1 p.2).dedup.length
            ∧ r.nucleus_area_px = ((posList (measure_label nm)).filter fun p =>
                decide ((measure_label nm).px p.1 p.2 = r.nucleus)).length
            ∧ r.total_foci_px = ((posList (measure_label nm)).filter fun p =>
                decide ((measure_label nm).px p.1 p.2 = r.nucleus)
                  && decide (fm.px p.1 p.2 ≠ 0)).length
            ∧ r.relative_foci_area =
                (if 0 < r.nucleus_area_px
                 then 100 * (r.total_foci_px : ℚ) / (r.nucleus_area_px : ℚ) else 0)) := by
  constructor
  · intro h
    unfold count_foci_in_nuclei
    rw [if_pos h]
  · intro hsh _ _
    unfold count_foci_in_nuclei
    rw [if_neg (not_not.mpr hsh)]
    simp only []
    refine ⟨_, rfl, ?_, ?_⟩
    · rw [List.map_map]
      have : ∀ N ∈ uniqueNonzero (measure_label nm),
          ((fun r : FociRow => r.nucleus) ∘ fun nuc_label =>
            ({ image_key := key, nucleus := nuc_label,
               foci_count := ((List.range (img_max (measure_label fm) + 1)).map
                   (fun l => hist2d (measure_label nm) (measure_label fm) nuc_label l)
                 |>.filter fun c => decide (c ≠ 0)).length,
               nucleus_area_px := regionArea (measure_label nm) nuc_label,
               nucleus_area_micron := (regionArea (measure_label nm) nuc_label : ℚ) * pa,
               total_foci_px := ((List.range (img_max (measure_label fm) + 1)).map
                 (fun l => hist2d (measure_label nm) (measure_label fm) nuc_label l)).sum,
               total_foci_micron := (((List.range (img_max (measure_label fm) + 1)).map
                 (fun l => hist2d (measure_label nm) (measure_label fm) nuc_label l)).sum : ℚ) * pa,
               relative_foci_area :=
                 if 0 < regionArea (measure_label nm) nuc_label
                 then ((((List.range (img_max (measure_label fm) + 1)).map
                     (fun l => hist2d (measure_label nm) (measure_label fm) nuc_label l)).sum : ℚ)
                     / (regionArea (measure_label nm) nuc_label : ℚ)) * 100
                 else 0 } : FociRow)) N = id N := fun N _ => rfl
      rw [List.map_congr_left this, List.map_id]
    · rintro r hr
      rcases List.mem_map.mp hr with ⟨N, hNmem, rfl⟩
      have hN0 : N ≠ 0 := of_decide_eq_true (List.mem_filter.mp hNmem).2
      have hA := (fast_row_stats nm fm hsh N hN0).1
      have hB := (fast_row_stats nm fm hsh N hN0).2
      have horig : (((posList (measure_label nm)).filter
            (fun p => decide ((measure_label nm).px p.1 p.2 = N))).filter
              (fun p => decide ((measure_label fm).px p.1 p.2 ≠ 0)))
          = ((posList (measure_label nm)).filter
              (fun p => decide ((measure_label nm).px p.1 p.2 = N)
                && decide (fm.px p.1 p.2 ≠ 0))) := by
        rw [List.filter_filter]
        apply List.filter_congr
        intro p _
        have hd : decide ((measure_label fm).px p.1 p.2 ≠ 0) = decide (fm.px p.1 p.2 ≠ 0) :=
          decide_eq_decide.mpr (measure_label_ne_zero fm p.1 p.2)
        rw [hd]
        exact Bool.and_comm _ _
      refine ⟨?_, ?_, ?_, ?_⟩
      · show (((List.range (img_max (measure_label fm) + 1)).map
            (fun l => hist2d (measure_label nm) (measure_label fm) N l)
          |>.filter fun c => decide (c ≠ 0)).length)
          = (((posList (measure_label nm)).filter fun p =>
              decide ((measure_label nm).px p.1 p.2 = N)
                && decide ((measure_label fm).px p.1 p.2 ≠ 0)).map fun p =>
              (measure_label fm).px p.1 p.2).dedup.length
        rw [hA, List.filter_filter]
        have hl : ((posList (measure_label nm)).filter fun a =>
              decide ((measure_label fm).px a.1 a.2 ≠ 0)
                && decide ((measure_label nm).px a.1 a.2 = N))
            = ((posList (measure_label nm)).filter fun p =>
              decide ((measure_label nm).px p.1 p.2 = N)
                && decide ((measure_label fm).px p.1 p.2 ≠ 0)) :=
          List.filter_congr fun p _ => Bool.and_comm _ _
        rw [hl]
      · show regionArea (measure_label nm) N
          = ((posList (measure_label nm)).filter fun p =>
              decide ((measure_label nm).px p.1 p.2 = N)).length
        rfl
      · show ((List.range (img_max (measure_label fm) + 1)).map
            (fun l => hist2d (measure_label nm) (measure_label fm) N l)).sum
          = ((posList (measure_label nm)).filter fun p =>
              decide ((measure_label nm).px p.1 p.2 = N)
                && decide (fm.px p.1 p.2 ≠ 0)).length
        rw [hB, horig]
      · show (if 0 < regionArea (measure_label nm) N
              then (((((List.range (img_max (measure_label fm) + 1)).map
                  (fun l => hist2d (measure_label nm) (measure_label fm) N l)).sum : ℚ))
                  / (regionArea (measure_label nm) N : ℚ)) * 100
              else (0 : ℚ))
          = (if 0 < regionArea (measure_label nm) N
             then 100 * ((((List.range (img_max (measure_label fm) + 1)).map
                  (fun l => hist2d (measure_label nm) (measure_label fm) N l)).sum : ℚ))
                  / (regionArea (measure_label nm) N : ℚ)
             else (0 : ℚ))
        by_cases hp : 0 < regionArea (measure_label nm) N
        · rw [if_pos hp, if_pos hp, mul_comm, mul_div_assoc]
        · rw [if_neg hp, if_neg hp]

/-- Witness for C1 at the concrete 1×3 masks `exNuc`, `exFoci`. -/
theorem c1_witness :
    ∃ rows, count_foci_in_nuclei exNuc exFoci 1 [] = .ok rows
      ∧ rows.map (fun r => r.nucleus) = uniqueNonzero (measure_label exNuc)
      ∧ ∀ r ∈ rows,
          r.foci_count = (((posList (measure_label exNuc)).filter fun p =>
              decide ((measure_label exNuc).px p.1 p.2 = r.nucleus)
                && decide ((measure_label exFoci).px p.1 p.2 ≠ 0)).map fun p =>
              (measure_label exFoci).px p.1 p.2).dedup.length
          ∧ r.nucleus_area_px = ((posList (measure_label exNuc)).filter fun p =>
              decide ((measure_label exNuc).px p.1 p.2 = r.nucleus)).length
          ∧ r.total_foci_px = ((posList (measure_label exNuc)).filter fun p =>
              decide ((measure_label exNuc).px p.1 p.2 = r.nucleus)
                && decide (exFoci.px p.1 p.2 ≠ 0)).length
          ∧ r.relative_foci_area =
              (if 0 < r.nucleus_area_px
               then 100 * (r.total_foci_px : ℚ) / (r.nucleus_area_px : ℚ) else 0) :=
  (c1_count_foci_per_component exNuc exFoci 1 []).2 (by decide) (by decide) (by decide)

/-! ### Lemmas for `build_intersection_mask` (claim C9) -/

theorem mem_uniqueNonzero (m : Img) (v : Nat) :
    v ∈ uniqueNonzero m ↔ v ≠ 0 ∧ ∃ p ∈ posList m, m.px p.1 p.2 = v := by
  unfold uniqueNonzero uniqueSorted
  rw [List.mem_filter]
  constructor
  · rintro ⟨hmem, hv⟩
    have h1 : v ∈ ((posList m).map fun p => m.px p.1 p.2).dedup :=
      (List.perm_insertionSort _ _).subset hmem
    rcases List.mem_map.mp (List.mem_dedup.mp h1) with ⟨p, hp, he⟩
    exact ⟨of_decide_eq_true hv, p, hp, he⟩
  · rintro ⟨hv, p, hp, he⟩
    refine ⟨?_, decide_eq_true hv⟩
    apply (List.perm_insertionSort (· ≤ ·) _).symm.subset
    exact List.mem_dedup.mpr (List.mem_map.mpr ⟨p, hp, he⟩)

theorem nodup_uniqueNonzero (m : Img) : (uniqueNonzero m).Nodup := by
  unfold uniqueNonzero uniqueSorted
  apply List.Nodup.filter
  exact ((List.perm_insertionSort (· ≤ ·) _).nodup_iff).mpr (List.nodup_dedup _)

theorem mem_cartProd (c : List Nat) (ls : List (List Nat)) :
    c ∈ cartProd ls ↔ List.Forall₂ (fun a l => a ∈ l) c ls := by
  induction ls generalizing c with
  | nil =>
    simp only [cartProd, List.mem_singleton]
    constructor
    · rintro rfl; exact List.Forall₂.nil
    · intro h; cases h; rfl
  | cons l ls ih =>
    simp only [cartProd, List.mem_flatMap, List.mem_map]
    constructor
    · rintro ⟨a, ha, c2, hc2, rfl⟩
      exact List.Forall₂.cons ha (ih c2 |>.mp hc2)
    · intro h
      cases h with
      | cons hab hrest =>
        next a c2 =>
          exact ⟨a, hab, c2, (ih c2).mpr hrest, rfl⟩

theorem cartProd_nodup (ls : List (List Nat)) (h : ∀ l ∈ ls, l.Nodup) :
    (cartProd ls).Nodup := by
  induction ls with
  | nil => simp [cartProd]
  | cons l ls ih =>
    simp only [cartProd]
    rw [List.nodup_flatMap]
    refine ⟨?_, ?_⟩
    · intro a _
      exact List.Nodup.map (fun x y hxy => by injection hxy)
        (ih fun l2 hl2 => h l2 (List.mem_cons_of_mem l hl2))
    · have hl : l.Nodup := h l (List.mem_cons_self l ls)
      apply List.Pairwise.imp ?_ hl
      intro a b hab
      intro c hca hcb
      simp only [List.mem_map] at hca hcb
      rcases hca with ⟨c1, _, rfl⟩
      rcases hcb with ⟨c2, _, he⟩
      exact hab (by injection he with h1 _; exact h1.symm ▸ rfl)

theorem cartProd_length (c : List Nat) (ls : List (List Nat)) (h : c ∈ cartProd ls) :
    c.length = ls.length :=
  ((mem_cartProd c ls).mp h).length_eq

theorem zip_all_eq_map (p : Nat × Nat) :
    ∀ (masks : List Img) (combo : List Nat), masks.length = combo.length →
    (((masks.zip combo).all fun mc => decide (mc.1.px p.1 p.2 = mc.2)) = true
      ↔ masks.map (fun m => m.px p.1 p.2) = combo) := by
  intro masks
  induction masks with
  | nil =>
    intro combo hlen
    cases combo with
    | nil => simp
    | cons _ _ => simp at hlen
  | cons m ms ih =>
    intro combo hlen
    cases combo with
    | nil => simp at hlen
    | cons a as =>
      simp only [List.zip_cons_cons, List.all_cons, Bool.and_eq_true, decide_eq_true_eq,
        List.map_cons, List.cons.injEq]
      rw [ih as (by simpa using hlen)]

theorem mem_comboOverlap (masks : List Img) (hw : Nat × Nat) (combo : List Nat)
    (hlen : masks.length = combo.length) (p : Nat × Nat) :
    p ∈ comboOverlap masks hw combo
      ↔ p ∈ posListHW hw.1 hw.2 ∧ masks.map (fun m => m.px p.1 p.2) = combo := by
  unfold comboOverlap
  rw [List.mem_filter]
  rw [zip_all_eq_map p masks combo hlen]

theorem forall2_mem_of_mem {c : List Nat} {ls : List (List Nat)}
    (h : List.Forall₂ (fun a l => a ∈ l) c ls) :
    ∀ x ∈ c, ∃ l ∈ ls, x ∈ l := by
  induction h with
  | nil => intro x hx; exact absurd hx (List.not_mem_nil x)
  | cons hab _ ih =>
    intro x hx
    rcases List.mem_cons.mp hx with h1 | h2
    · subst h1
      exact ⟨_, List.mem_cons_self _ _, hab⟩
    · rcases ih x h2 with ⟨l, hl, hxl⟩
      exact ⟨l, List.mem_cons_of_mem _ hl, hxl⟩

theorem intersectionStep_empty (masks : List Img) (hw : Nat × Nat)
    (st : ((Nat × Nat) → Nat) × Nat) (c : List Nat)
    (h : (comboOverlap masks hw c).isEmpty = true) :
    intersectionStep masks hw st c = st := by
  unfold intersectionStep
  rw [if_pos h]

theorem intersectionStep_write (masks : List Img) (hw : Nat × Nat)
    (st : ((Nat × Nat) → Nat) × Nat) (c : List Nat)
    (h : (comboOverlap masks hw c).isEmpty = false) :
    intersectionStep masks hw st c
      = (fun p => if p ∈ comboOverlap masks hw c then st.2 % 65536 else st.1 p,
         st.2 + 1) := by
  unfold intersectionStep
  rw [if_neg (by rw [h]; exact Bool.false_ne_true)]

theorem intersection_fold_untouched (masks : List Img) (hw : Nat × Nat) :
    ∀ (cs : List (List Nat)) (st : ((Nat × Nat) → Nat) × Nat) (p : Nat × Nat),
      (∀ c ∈ cs, p ∉ comboOverlap masks hw c) →
      (cs.foldl (intersectionStep masks hw) st).1 p = st.1 p := by
  intro cs
  induction cs with
  | nil => intro st p _; rfl
  | cons c rest ih =>
    intro st p hp
    show ((rest.foldl (intersectionStep masks hw) (intersectionStep masks hw st c)).1 p = _)
    rw [ih (intersectionStep masks hw st c) p
      (fun c2 hc2 => hp c2 (List.mem_cons_of_mem c hc2))]
    cases hemp : (comboOverlap masks hw c).isEmpty with
    | true => rw [intersectionStep_empty masks hw st c hemp]
    | false =>
      rw [intersectionStep_write masks hw st c hemp]
      exact if_neg (hp c (List.mem_cons_self c rest))

theorem intersection_fold_value (masks : List Img) (hw : Nat × Nat) :
    ∀ (cs : List (List Nat)) (st : ((Nat × Nat) → Nat) × Nat) (p : Nat × Nat),
      p ∈ posListHW hw.1 hw.2 →
      (∀ c ∈ cs, masks.length = c.length) →
      cs.Nodup →
      (masks.map fun m => m.px p.1 p.2) ∈ cs →
      (cs.foldl (intersectionStep masks hw) st).1 p
        = (st.2 + cntBefore masks hw cs (masks.map fun m => m.px p.1 p.2)) % 65536 := by
  intro cs
  induction cs with
  | nil =>
    intro st p _ _ _ hmem
    exact absurd hmem (List.not_mem_nil _)
  | cons c rest ih =>
    intro st p hp hlen hnodup hmem
    by_cases hc : c = (masks.map fun m => m.px p.1 p.2)
    · -- the head is the combination of p: it is written here and never again
      have hpov : p ∈ comboOverlap masks hw c :=
        (mem_comboOverlap masks hw c (hlen c (List.mem_cons_self c rest)) p).mpr
          ⟨hp, hc.symm⟩
      have hne : (comboOverlap masks hw c).isEmpty = false := by
        rw [List.isEmpty_eq_false]
        intro hnil
        rw [hnil] at hpov
        exact absurd hpov (List.not_mem_nil p)
      show ((rest.foldl (intersectionStep masks hw) (intersectionStep masks hw st c)).1 p = _)
      have hrest : ∀ c2 ∈ rest, p ∉ comboOverlap masks hw c2 := by
        intro c2 hc2 hpc2
        have hx := (mem_comboOverlap masks hw c2
          (hlen c2 (List.mem_cons_of_mem c hc2)) p).mp hpc2
        have hc2eq : c2 = c := by rw [hc, ← hx.2]
        subst hc2eq
        exact (List.nodup_cons.mp hnodup).1 hc2
      rw [intersection_fold_untouched masks hw rest _ p hrest]
      rw [intersectionStep_write masks hw st c hne]
      show (if p ∈ comboOverlap masks hw c then st.2 % 65536 else st.1 p) = _
      rw [if_pos hpov]
      unfold cntBefore
      rw [List.takeWhile_cons]
      rw [if_neg (by simp [hc])]
      simp
    · -- the head is another combination
      have hmem2 : (masks.map fun m => m.px p.1 p.2) ∈ rest := by
        rcases List.mem_cons.mp hmem with h1 | h2
        · exact absurd h1.symm hc
        · exact h2
      have hcnt : cntBefore masks hw (c :: rest) (masks.map fun m => m.px p.1 p.2)
          = (if (comboOverlap masks hw c).isEmpty = false then 1 else 0)
            + cntBefore masks hw rest (masks.map fun m => m.px p.1 p.2) := by
        unfold cntBefore
        rw [List.takeWhile_cons, if_pos (by simp [hc])]
        rw [List.filter_cons]
        by_cases he : (comboOverlap masks hw c).isEmpty = false
        · rw [if_pos (by simp [he]), if_pos he]
          simp [Nat.add_comm]
        · have he2 : (comboOverlap masks hw c).isEmpty = true := by
            cases h2 : (comboOverlap masks hw c).isEmpty
            · exact absurd h2 he
            · rfl
          rw [if_neg (by simp [he2]), if_neg he]
          simp
      show ((rest.foldl (intersectionStep masks hw) (intersectionStep masks hw st c)).1 p = _)
      cases hemp : (comboOverlap masks hw c).isEmpty with
      | true =>
        rw [intersectionStep_empty masks hw st c hemp]
        rw [ih st p hp (fun c2 hc2 => hlen c2 (List.mem_cons_of_mem c hc2))
          (List.nodup_cons.mp hnodup).2 hmem2]
        rw [hcnt, if_neg (by rw [hemp]; intro h; cases h)]
        rw [Nat.zero_add]
      | false =>
        rw [intersectionStep_write masks hw st c hemp]
        rw [ih _ p hp (fun c2 hc2 => hlen c2 (List.mem_cons_of_mem c hc2))
          (List.nodup_cons.mp hnodup).2 hmem2]
        show (st.2 + 1 + _) % 65536 = _
        rw [hcnt, if_pos hemp]
        congr 1
        omega

theorem cntBefore_rank_bound (masks : List Img) (hw : Nat × Nat) :
    ∀ (cs : List (List Nat)) (c : List Nat), c ∈ cs →
      (comboOverlap masks hw c).isEmpty = false →
      cntBefore masks hw cs c + 1
        ≤ (cs.filter fun c2 => !(comboOverlap masks hw c2).isEmpty).length := by
  intro cs
  induction cs with
  | nil => intro c hc; exact absurd hc (List.not_mem_nil c)
  | cons h rest ih =>
    intro c hc hne
    rw [List.filter_cons]
    by_cases hhc : h = c
    · subst hhc
      have h0 : cntBefore masks hw (h :: rest) h = 0 := by
        unfold cntBefore
        rw [List.takeWhile_cons, if_neg (by simp)]
        rfl
      rw [h0, if_pos (by rw [hne]; rfl)]
      simp
    · have hcr : c ∈ rest := by
        rcases List.mem_cons.mp hc with h1 | h2
        · exact absurd h1.symm hhc
        · exact h2
      have hstep : cntBefore masks hw (h :: rest) c
          = (if (comboOverlap masks hw h).isEmpty = false then 1 else 0)
            + cntBefore masks hw rest c := by
        unfold cntBefore
        rw [List.takeWhile_cons, if_pos (by simp [hhc])]
        rw [List.filter_cons]
        by_cases he : (comboOverlap masks hw h).isEmpty = false
        · rw [if_pos (by rw [he]; rfl), if_pos he]
          simp [Nat.add_comm]
        · have he2 : (comboOverlap masks hw h).isEmpty = true := by
            cases h2 : (comboOverlap masks hw h).isEmpty
            · exact absurd h2 he
            · rfl
          rw [if_neg (by rw [he2]; simp), if_neg he]
          simp
      rw [hstep]
      by_cases he : (comboOverlap masks hw h).isEmpty = false
      · rw [if_pos he, if_pos (by rw [he]; rfl)]
        have := ih c hcr hne
        simp only [List.length_cons]
        omega
      · have he2 : (comboOverlap masks hw h).isEmpty = true := by
          cases h2 : (comboOverlap masks hw h).isEmpty
          · exact absurd h2 he
          · rfl
        rw [if_neg he, if_neg (by rw [he2]; simp)]
        have := ih c hcr hne
        omega

theorem cntBefore_inj (masks : List Img) (hw : Nat × Nat) :
    ∀ (cs : List (List Nat)), cs.Nodup → ∀ c1 c2, c1 ∈ cs → c2 ∈ cs →
      (comboOverlap masks hw c1).isEmpty = false →
      (comboOverlap masks hw c2).isEmpty = false →
      cntBefore masks hw cs c1 = cntBefore masks hw cs c2 → c1 = c2 := by
  intro cs
  induction cs with
  | nil => intro _ c1 c2 hc1; exact absurd hc1 (List.not_mem_nil c1)
  | cons h rest ih =>
    intro hnodup c1 c2 hc1 hc2 hne1 hne2 heq
    have hzero : ∀ c, h = c → cntBefore masks hw (h :: rest) c = 0 := by
      intro c hce
      unfold cntBefore
      rw [List.takeWhile_cons, if_neg (by simp [hce])]
      rfl
    have hstep : ∀ c, h ≠ c → cntBefore masks hw (h :: rest) c
        = (if (comboOverlap masks hw h).isEmpty = false then 1 else 0)
          + cntBefore masks hw rest c := by
      intro c hce
      unfold cntBefore
      rw [List.takeWhile_cons, if_pos (by simp [hce])]
      rw [List.filter_cons]
      by_cases he : (comboOverlap masks hw h).isEmpty = false
      · rw [if_pos (by rw [he]; rfl), if_pos he]
        simp [Nat.add_comm]
      · have he2 : (comboOverlap masks hw h).isEmpty = true := by
          cases h2 : (comboOverlap masks hw h).isEmpty
          · exact absurd h2 he
          · rfl
        rw [if_neg (by rw [he2]; simp), if_neg he]
        simp
    by_cases h1 : h = c1 <;> by_cases h2 : h = c2
    · rw [← h1, ← h2]
    · -- h = c1, h ≠ c2: cnt c1 = 0 but cnt c2 ≥ 1 since overlap of h = c1 is nonempty
      exfalso
      rw [hzero c1 h1, hstep c2 h2] at heq
      rw [if_pos (h1 ▸ hne1)] at heq
      omega
    · exfalso
      rw [hzero c2 h2, hstep c1 h1] at heq
      rw [if_pos (h2 ▸ hne2)] at heq
      omega
    · have hc1r : c1 ∈ rest := by
        rcases List.mem_cons.mp hc1 with hx | hx
        · exact absurd hx.symm h1
        · exact hx
      have hc2r : c2 ∈ rest := by
        rcases List.mem_cons.mp hc2 with hx | hx
        · exact absurd hx.symm h2
        · exact hx
      rw [hstep c1 h1, hstep c2 h2] at heq
      exact ih (List.nodup_cons.mp hnodup).2 c1 c2 hc1r hc2r hne1 hne2 (by omega)

theorem forall2_map_pair {α β γ : Type} (f : α → β) (g : α → γ) (R : β → γ → Prop)
    (l : List α) (h : ∀ x ∈ l, R (f x) (g x)) :
    List.Forall₂ R (l.map f) (l.map g) := by
  induction l with
  | nil => exact List.Forall₂.nil
  | cons x xs ih =>
    exact List.Forall₂.cons (h x (List.mem_cons_self x xs))
      (ih fun y hy => h y (List.mem_cons_of_mem x hy))

theorem allSameShape_spec (m0 : Img) (ms : List Img)
    (h : allSameShape (m0 :: ms) = true) :
    ∀ m ∈ m0 :: ms, m.h = m0.h ∧ m.w = m0.w := by
  intro m hm
  rcases List.mem_cons.mp hm with h1 | h2
  · subst h1; exact ⟨rfl, rfl⟩
  · have := List.all_eq_true.mp h m h2
    rw [Bool.and_eq_true] at this
    exact ⟨of_decide_eq_true this.1, of_decide_eq_true this.2⟩

/-! ### Claim C9 -/

/-- Claim C9 (supporting theorem for the reported code bug):
`build_intersection_mask` raises `ValueError` unless it is given at least 2
masks of identical shape.  Under that precondition, and provided fewer than
65536 label combinations have a non-empty overlap (so that the uint16 label
counter does not overflow — the code bug reported for this claim), the
returned mask satisfies the claimed invariants: a pixel is nonzero iff it is
nonzero in every input mask, and two such pixels carry the same label iff
they carry the same combination of input labels, i.e. each distinct
overlapping combination receives its own positive label. -/
theorem c9_build_intersection_mask (masks : List Img) :
    (masks.length < 2 →
      build_intersection_mask masks = .error "The function requires at least 2 masks.")
    ∧ (2 ≤ masks.length → allSameShape masks = false →
      build_intersection_mask masks
        = .error "All masks must have the same shape for intersection.")
    ∧ (∀ m0 ms, masks = m0 :: ms → 2 ≤ masks.length → allSameShape masks = true →
      ((cartProd (masks.map uniqueNonzero)).filter
          (fun c => !(comboOverlap masks (m0.h, m0.w) c).isEmpty)).length < 65536 →
      ∃ out, build_intersection_mask masks = .ok out
        ∧ out.h = m0.h ∧ out.w = m0.w
        ∧ (∀ p ∈ posListHW m0.h m0.w,
            (out.px p.1 p.2 ≠ 0 ↔ ∀ m ∈ masks, m.px p.1 p.2 ≠ 0))
        ∧ (∀ p ∈ posListHW m0.h m0.w, ∀ q ∈ posListHW m0.h m0.w,
            (∀ m ∈ masks, m.px p.1 p.2 ≠ 0) → (∀ m ∈ masks, m.px q.1 q.2 ≠ 0) →
            (out.px p.1 p.2 = out.px q.1 q.2 ↔
              masks.map (fun m => m.px p.1 p.2) = masks.map (fun m => m.px q.1 q.2)))) := by
  refine ⟨?_, ?_, ?_⟩
  · intro hlt
    unfold build_intersection_mask
    rw [if_pos hlt]
  · intro hge hsh
    unfold build_intersection_mask
    rw [if_neg (by omega)]
    rw [if_pos (by rw [hsh]; exact Bool.false_ne_true)]
  · intro m0 ms hmasks hge hsh hbound
    subst hmasks
    unfold build_intersection_mask
    rw [if_neg (by omega), if_neg (not_not.mpr hsh)]
    simp only []
    have hshapes := allSameShape_spec m0 ms hsh
    have hcombolen : ∀ c ∈ cartProd ((m0 :: ms).map uniqueNonzero),
        (m0 :: ms).length = c.length := by
      intro c hc
      rw [cartProd_length c _ hc, List.length_map]
    have hnodup : (cartProd ((m0 :: ms).map uniqueNonzero)).Nodup := by
      apply cartProd_nodup
      intro l hl
      rcases List.mem_map.mp hl with ⟨m, _, rfl⟩
      exact nodup_uniqueNonzero m
    have hmemC : ∀ p ∈ posListHW m0.h m0.w, (∀ m ∈ m0 :: ms, m.px p.1 p.2 ≠ 0) →
        ((m0 :: ms).map fun m => m.px p.1 p.2)
          ∈ cartProd ((m0 :: ms).map uniqueNonzero) := by
      intro p hp hnz
      apply (mem_cartProd _ _).mpr
      apply forall2_map_pair
      intro m hm
      apply (mem_uniqueNonzero m _).mpr
      refine ⟨hnz m hm, p, ?_, rfl⟩
      show p ∈ posListHW m.h m.w
      rw [(hshapes m hm).1, (hshapes m hm).2]
      exact hp
    have hone : ∀ p ∈ posListHW m0.h m0.w, (∀ m ∈ m0 :: ms, m.px p.1 p.2 ≠ 0) →
        (comboOverlap (m0 :: ms) (m0.h, m0.w)
          ((m0 :: ms).map fun m => m.px p.1 p.2)).isEmpty = false := by
      intro p hp _
      rw [List.isEmpty_eq_false]
      intro hnil
      have hpm : p ∈ comboOverlap (m0 :: ms) (m0.h, m0.w)
          ((m0 :: ms).map fun m => m.px p.1 p.2) :=
        (mem_comboOverlap _ _ _ (by rw [List.length_map]) p).mpr ⟨hp, rfl⟩
      rw [hnil] at hpm
      exact absurd hpm (List.not_mem_nil p)
    have hval : ∀ p ∈ posListHW m0.h m0.w, (∀ m ∈ m0 :: ms, m.px p.1 p.2 ≠ 0) →
        ((cartProd ((m0 :: ms).map uniqueNonzero)).foldl
            (intersectionStep (m0 :: ms) (m0.h, m0.w)) (fun _ => 0, 1)).1 p
          = 1 + cntBefore (m0 :: ms) (m0.h, m0.w)
              (cartProd ((m0 :: ms).map uniqueNonzero))
              ((m0 :: ms).map fun m => m.px p.1 p.2) := by
      intro p hp hnz
      rw [intersection_fold_value (m0 :: ms) (m0.h, m0.w) _ _ p hp hcombolen hnodup
        (hmemC p hp hnz)]
      have hle := cntBefore_rank_bound (m0 :: ms) (m0.h, m0.w) _ _
        (hmemC p hp hnz) (hone p hp hnz)
      apply Nat.mod_eq_of_lt
      omega
    have huntouched : ∀ p ∈ posListHW m0.h m0.w, ¬ (∀ m ∈ m0 :: ms, m.px p.1 p.2 ≠ 0) →
        ((cartProd ((m0 :: ms).map uniqueNonzero)).foldl
            (intersectionStep (m0 :: ms) (m0.h, m0.w)) (fun _ => 0, 1)).1 p = 0 := by
      intro p hp hnz
      rw [intersection_fold_untouched (m0 :: ms) (m0.h, m0.w) _ _ p ?_]
      push_neg at hnz
      rcases hnz with ⟨m, hm, hm0⟩
      intro c hc hpc
      have hx := (mem_comboOverlap _ _ c (hcombolen c hc) p).mp hpc
      have h0c : (0 : Nat) ∈ c := by
        rw [← hx.2]
        exact List.mem_map.mpr ⟨m, hm, hm0⟩
      have hf2 := (mem_cartProd c _).mp hc
      rcases forall2_mem_of_mem hf2 0 h0c with ⟨l, hl, h0l⟩
      rcases List.mem_map.mp hl with ⟨m2, _, rfl⟩
      exact ((mem_uniqueNonzero m2 0).mp h0l).1 rfl
    refine ⟨_, rfl, rfl, rfl, ?_, ?_⟩
    · intro p hp
      show ((cartProd ((m0 :: ms).map uniqueNonzero)).foldl
            (intersectionStep (m0 :: ms) (m0.h, m0.w)) (fun _ => 0, 1)).1 p ≠ 0
          ↔ ∀ m ∈ m0 :: ms, m.px p.1 p.2 ≠ 0
      constructor
      · intro hne
        by_contra hnz
        rw [huntouched p hp hnz] at hne
        exact hne rfl
      · intro hnz
        rw [hval p hp hnz]
        omega
    · intro p hp q hq hnzp hnzq
      show (((cartProd ((m0 :: ms).map uniqueNonzero)).foldl
            (intersectionStep (m0 :: ms) (m0.h, m0.w)) (fun _ => 0, 1)).1 p
          = ((cartProd ((m0 :: ms).map uniqueNonzero)).foldl
            (intersectionStep (m0 :: ms) (m0.h, m0.w)) (fun _ => 0, 1)).1 q)
          ↔ ((m0 :: ms).map fun m => m.px p.1 p.2) = ((m0 :: ms).map fun m => m.px q.1 q.2)
      rw [hval p hp hnzp, hval q hq hnzq]
      constructor
      · intro heq
        exact cntBefore_inj (m0 :: ms) (m0.h, m0.w) _ hnodup _ _
          (hmemC p hp hnzp) (hmemC q hq hnzq) (hone p hp hnzp) (hone q hq hnzq)
          (by omega)
      · intro heq
        rw [heq]

/-- Witness for C9 at the concrete pair of 1×3 masks. -/
theorem c9_witness :
    ∃ out, build_intersection_mask [exNuc, exFoci] = .ok out
      ∧ out.h = exNuc.h ∧ out.w = exNuc.w
      ∧ (∀ p ∈ posListHW exNuc.h exNuc.w,
          (out.px p.1 p.2 ≠ 0 ↔ ∀ m ∈ [exNuc, exFoci], m.px p.1 p.2 ≠ 0))
      ∧ (∀ p ∈ posListHW exNuc.h exNuc.w, ∀ q ∈ posListHW exNuc.h exNuc.w,
          (∀ m ∈ [exNuc, exFoci], m.px p.1 p.2 ≠ 0) →
          (∀ m ∈ [exNuc, exFoci], m.px q.1 q.2 ≠ 0) →
          (out.px p.1 p.2 = out.px q.1 q.2 ↔
            ([exNuc, exFoci].map fun m => m.px p.1 p.2)
              = [exNuc, exFoci].map fun m => m.px q.1 q.2)) :=
  (c9_build_intersection_mask [exNuc, exFoci]).2.2 exNuc [exFoci] rfl
    (by decide) (by decide) (by decide)

/-! ### Claim C3 -/

theorem daysInMonth_le (y mo : Nat) : daysInMonth y mo ≤ 31 := by
  unfold daysInMonth
  split
  · split <;> omega
  · split <;> omega

theorem dtValid_bounds (t : DT) (h : dtValid t = true) :
    1 ≤ t.y ∧ t.y ≤ 9999 ∧ 1 ≤ t.mo ∧ t.mo ≤ 12 ∧ 1 ≤ t.d ∧ t.d ≤ 31 ∧
      t.hh ≤ 23 ∧ t.mi ≤ 59 ∧ t.s ≤ 59 := by
  simp only [dtValid, Bool.and_eq_true, decide_eq_true_eq] at h
  have := daysInMonth_le t.y t.mo
  omega

theorem ltB_iff_key (a b : DT) (ha : dtValid a = true) (hb : dtValid b = true) :
    DT.ltB a b = true ↔ a.key < b.key := by
  obtain ⟨_, _, _, _, _, _, _, _, _⟩ := dtValid_bounds a ha
  obtain ⟨_, _, _, _, _, _, _, _, _⟩ := dtValid_bounds b hb
  simp only [DT.ltB, DT.key, Bool.or_eq_true, Bool.and_eq_true, decide_eq_true_eq]
  omega

theorem ltStr_irrefl (s : Str) : ltStr s s = false := by
  induction s with
  | nil => rfl
  | cons c rest ih => simp [ltStr, ih]

theorem ltStr_trans (a : Str) : ∀ b c, ltStr a b = true → ltStr b c = true →
    ltStr a c = true := by
  induction a with
  | nil =>
    intro b c hab hbc
    cases b with
    | nil => simp [ltStr] at hab
    | cons y ys =>
      cases c with
      | nil => simp [ltStr] at hbc
      | cons z zs => rfl
  | cons x xs ih =>
    intro b c hab hbc
    cases b with
    | nil => simp [ltStr] at hab
    | cons y ys =>
      cases c with
      | nil => simp [ltStr] at hbc
      | cons z zs =>
        simp only [ltStr, Bool.or_eq_true, Bool.and_eq_true,
          decide_eq_true_eq] at hab hbc ⊢
        rcases hab with h1 | ⟨h1, h2⟩
        · rcases hbc with h3 | ⟨h3, h4⟩
          · exact Or.inl (lt_trans h1 h3)
          · exact Or.inl (h3 ▸ h1)
        · rcases hbc with h3 | ⟨h3, h4⟩
          · exact Or.inl (h1 ▸ h3)
          · exact Or.inr ⟨h1.trans h3, ih ys zs h2 h4⟩

theorem ltStr_eq_of_not (a : Str) : ∀ b, ltStr a b = false → ltStr b a = false →
    a = b := by
  induction a with
  | nil =>
    intro b hab hba
    cases b with
    | nil => rfl
    | cons y ys => simp [ltStr] at hab
  | cons x xs ih =>
    intro b hab hba
    cases b with
    | nil => simp [ltStr] at hba
    | cons y ys =>
      simp only [ltStr, Bool.or_eq_false_iff, Bool.and_eq_false_iff,
        decide_eq_false_iff_not] at hab hba
      obtain ⟨hxy, hrest⟩ := hab
      obtain ⟨hyx, hrest2⟩ := hba
      have hxyeq : x = y := le_antisymm (not_lt.mp hyx) (not_lt.mp hxy)
      subst hxyeq
      rcases hrest with h | h
      · exact absurd rfl h
      · rcases hrest2 with h2 | h2
        · exact absurd rfl h2
        · rw [ih ys h h2]

theorem ltStr_resolve (a b : Str) (h : ltStr a b = false) :
    ltStr b a = true ∨ a = b := by
  cases hba : ltStr b a with
  | true => exact Or.inl rfl
  | false => exact Or.inr (ltStr_eq_of_not a b h hba)

theorem ltStr_append_iff (u1 : Str) : ∀ u2 v1 v2 : Str, u1.length = u2.length →
    (ltStr (u1 ++ v1) (u2 ++ v2) = true ↔
      (ltStr u1 u2 = true ∨ (u1 = u2 ∧ ltStr v1 v2 = true))) := by
  induction u1 with
  | nil =>
    intro u2 v1 v2 hlen
    cases u2 with
    | nil => simp [ltStr]
    | cons y ys => simp at hlen
  | cons x xs ih =>
    intro u2 v1 v2 hlen
    cases u2 with
    | nil => simp at hlen
    | cons y ys =>
      simp only [List.length_cons, Nat.add_right_cancel_iff] at hlen
      simp only [List.cons_append, ltStr, Bool.or_eq_true, Bool.and_eq_true,
        decide_eq_true_eq, List.cons.injEq, List.append_eq]
      rw [ih ys v1 v2 hlen]
      tauto

theorem digitChar_lt_iff : ∀ a < 10, ∀ b < 10,
    ((Nat.digitChar a < Nat.digitChar b) ↔ a < b) := by decide

theorem digitChar_inj_iff : ∀ a < 10, ∀ b < 10,
    ((Nat.digitChar a = Nat.digitChar b) ↔ a = b) := by decide

theorem pad2_lt_iff (a b : Nat) (ha : a < 100) (hb : b < 100) :
    (ltStr (pad2 a) (pad2 b) = true ↔ a < b) := by
  have h1 : a / 10 < 10 := by omega
  have h2 : b / 10 < 10 := by omega
  have h3 : a % 10 < 10 := by omega
  have h4 : b % 10 < 10 := by omega
  simp only [pad2, ltStr, Bool.or_eq_true, Bool.and_eq_true, decide_eq_true_eq,
    Bool.or_false, Bool.and_false]
  rw [digitChar_lt_iff _ h1 _ h2, digitChar_inj_iff _ h1 _ h2,
    digitChar_lt_iff _ h3 _ h4]
  omega

theorem pad2_inj_iff (a b : Nat) (ha : a < 100) (hb : b < 100) :
    (pad2 a = pad2 b ↔ a = b) := by
  have h1 : a / 10 < 10 := by omega
  have h2 : b / 10 < 10 := by omega
  have h3 : a % 10 < 10 := by omega
  have h4 : b % 10 < 10 := by omega
  simp only [pad2, List.cons.injEq, and_true]
  rw [digitChar_inj_iff _ h1 _ h2, digitChar_inj_iff _ h3 _ h4]
  omega

theorem pad4_lt_iff (a b : Nat) (ha : a < 10000) (hb : b < 10000) :
    (ltStr (pad4 a) (pad4 b) = true ↔ a < b) := by
  have h1 : a / 100 < 100 := by omega
  have h2 : b / 100 < 100 := by omega
  have h3 : a % 100 < 100 := by omega
  have h4 : b % 100 < 100 := by omega
  simp only [pad4]
  rw [ltStr_append_iff _ _ _ _ (by rfl), pad2_lt_iff _ _ h1 h2,
    pad2_inj_iff _ _ h1 h2, pad2_lt_iff _ _ h3 h4]
  omega

theorem append_eq_append_iff_len {α : Type} (u1 u2 v1 v2 : List α)
    (h : u1.length = u2.length) :
    (u1 ++ v1 = u2 ++ v2) ↔ (u1 = u2 ∧ v1 = v2) :=
  ⟨fun he => List.append_inj he h, fun hp => hp.1 ▸ hp.2 ▸ rfl⟩

theorem pad4_inj_iff (a b : Nat) (ha : a < 10000) (hb : b < 10000) :
    (pad4 a = pad4 b ↔ a = b) := by
  have h1 : a / 100 < 100 := by omega
  have h2 : b / 100 < 100 := by omega
  have h3 : a % 100 < 100 := by omega
  have h4 : b % 100 < 100 := by omega
  simp only [pad4]
  rw [append_eq_append_iff_len _ _ _ _ (by rfl), pad2_inj_iff _ _ h1 h2,
    pad2_inj_iff _ _ h3 h4]
  omega

theorem ltStr_underscore_pad (v1 v2 : Str) :
    (ltStr (['_'] ++ v1) (['_'] ++ v2) = true ↔ ltStr v1 v2 = true) := by
  rw [ltStr_append_iff _ _ _ _ rfl]
  simp [ltStr]

theorem render_lt_iff (t1 t2 : DT) (h1 : dtValid t1 = true)
    (h2 : dtValid t2 = true) :
    (ltStr (renderTs t1) (renderTs t2) = true ↔ t1.key < t2.key) := by
  obtain ⟨a1, a2, a3, a4, a5, a6, a7, a8, a9⟩ := dtValid_bounds t1 h1
  obtain ⟨b1, b2, b3, b4, b5, b6, b7, b8, b9⟩ := dtValid_bounds t2 h2
  simp only [renderTs, List.append_assoc]
  rw [ltStr_append_iff (pad4 t1.y) (pad4 t2.y) _ _ (by rfl),
    pad4_lt_iff _ _ (by omega) (by omega), pad4_inj_iff _ _ (by omega) (by omega),
    ltStr_append_iff (pad2 t1.mo) (pad2 t2.mo) _ _ (by rfl),
    pad2_lt_iff _ _ (by omega) (by omega), pad2_inj_iff _ _ (by omega) (by omega),
    ltStr_append_iff (pad2 t1.d) (pad2 t2.d) _ _ (by rfl),
    pad2_lt_iff _ _ (by omega) (by omega), pad2_inj_iff _ _ (by omega) (by omega),
    ltStr_underscore_pad,
    ltStr_append_iff (pad2 t1.hh) (pad2 t2.hh) _ _ (by rfl),
    pad2_lt_iff _ _ (by omega) (by omega), pad2_inj_iff _ _ (by omega) (by omega),
    ltStr_append_iff (pad2 t1.mi) (pad2 t2.mi) _ _ (by rfl),
    pad2_lt_iff _ _ (by omega) (by omega), pad2_inj_iff _ _ (by omega) (by omega),
    pad2_lt_iff _ _ (by omega) (by omega)]
  simp only [DT.key]
  omega

theorem occursIn_cons (pat : Str) (c : Char) (rest : Str) :
    occursIn pat (c :: rest)
      = (pat.isPrefixOf (c :: rest) || occursIn pat rest) := by
  unfold occursIn
  rw [List.length_cons, List.range_succ_eq_map, List.any_cons, List.any_map]
  rfl

theorem replaceAll_of_not_occurs (pat repl : Str) :
    ∀ s, occursIn pat s = false → replaceAll s pat repl = s := by
  intro s
  induction s with
  | nil => intro _; rfl
  | cons c rest ih =>
    intro h
    rw [occursIn_cons] at h
    rw [Bool.or_eq_false_iff] at h
    rw [replaceAll_nomatch pat repl c rest (by simp [h.1])]
    rw [ih h.2]

theorem replaceAll_strip (pre rest : Str) (hpre : pre ≠ [])
    (hocc : occursIn pre rest = false) :
    replaceAll (pre ++ rest) pre [] = rest := by
  have hp : pre.isPrefixOf (pre ++ rest) = true := by
    rw [List.isPrefixOf_iff_prefix]
    exact List.prefix_append pre rest
  rw [replaceAll_match pre [] (pre ++ rest) hpre hp, List.nil_append,
    List.drop_left]
  exact replaceAll_of_not_occurs pre [] rest hocc

theorem digitChar_isDigit : ∀ a < 10, (Nat.digitChar a).isDigit = true := by
  decide

theorem dval_digitChar : ∀ a < 10, dval (Nat.digitChar a) = a := by decide

theorem parseTs_renderTs (t : DT) (h : dtValid t = true) :
    parseTs (renderTs t) = some t := by
  obtain ⟨a1, a2, a3, a4, a5, a6, a7, a8, a9⟩ := dtValid_bounds t h
  show parseTs [Nat.digitChar (t.y / 100 / 10), Nat.digitChar (t.y / 100 % 10),
      Nat.digitChar (t.y % 100 / 10), Nat.digitChar (t.y % 100 % 10),
      Nat.digitChar (t.mo / 10), Nat.digitChar (t.mo % 10),
      Nat.digitChar (t.d / 10), Nat.digitChar (t.d % 10), '_',
      Nat.digitChar (t.hh / 10), Nat.digitChar (t.hh % 10),
      Nat.digitChar (t.mi / 10), Nat.digitChar (t.mi % 10),
      Nat.digitChar (t.s / 10), Nat.digitChar (t.s % 10)] = some t
  simp only [parseTs]
  rw [if_pos]
  · have hy : ((dval (Nat.digitChar (t.y / 100 / 10)) * 10 +
        dval (Nat.digitChar (t.y / 100 % 10))) * 10 +
        dval (Nat.digitChar (t.y % 100 / 10))) * 10 +
        dval (Nat.digitChar (t.y % 100 % 10)) = t.y := by
      rw [dval_digitChar (t.y / 100 / 10) (by omega),
        dval_digitChar (t.y / 100 % 10) (by omega),
        dval_digitChar (t.y % 100 / 10) (by omega),
        dval_digitChar (t.y % 100 % 10) (by omega)]
      omega
    have hmo : dval (Nat.digitChar (t.mo / 10)) * 10 +
        dval (Nat.digitChar (t.mo % 10)) = t.mo := by
      rw [dval_digitChar (t.mo / 10) (by omega),
        dval_digitChar (t.mo % 10) (by omega)]
      omega
    have hdd : dval (Nat.digitChar (t.d / 10)) * 10 +
        dval (Nat.digitChar (t.d % 10)) = t.d := by
      rw [dval_digitChar (t.d / 10) (by omega),
        dval_digitChar (t.d % 10) (by omega)]
      omega
    have hhh : dval (Nat.digitChar (t.hh / 10)) * 10 +
        dval (Nat.digitChar (t.hh % 10)) = t.hh := by
      rw [dval_digitChar (t.hh / 10) (by omega),
        dval_digitChar (t.hh % 10) (by omega)]
      omega
    have hmi : dval (Nat.digitChar (t.mi / 10)) * 10 +
        dval (Nat.digitChar (t.mi % 10)) = t.mi := by
      rw [dval_digitChar (t.mi / 10) (by omega),
        dval_digitChar (t.mi % 10) (by omega)]
      omega
    have hss : dval (Nat.digitChar (t.s / 10)) * 10 +
        dval (Nat.digitChar (t.s % 10)) = t.s := by
      rw [dval_digitChar (t.s / 10) (by omega),
        dval_digitChar (t.s % 10) (by omega)]
      omega
    rw [hy, hmo, hdd, hhh, hmi, hss]
    show (if dtValid t = true then some t else none) = some t
    rw [if_pos h]
  · refine ⟨?_, by trivial⟩
    simp only [Bool.and_eq_true]
    refine ⟨⟨⟨⟨⟨⟨⟨⟨⟨⟨⟨⟨⟨?_, ?_⟩, ?_⟩, ?_⟩, ?_⟩, ?_⟩, ?_⟩, ?_⟩, ?_⟩, ?_⟩,
      ?_⟩, ?_⟩, ?_⟩, ?_⟩ <;> exact digitChar_isDigit _ (by omega)

theorem filterMap_eq_map_of_some {α β : Type} (f : α → Option β) (g : α → β) :
    ∀ l : List α, (∀ x ∈ l, f x = some (g x)) → l.filterMap f = l.map g := by
  intro l
  induction l with
  | nil => intro _; rfl
  | cons a l ih =>
    intro h
    rw [List.filterMap_cons_some (h a (List.mem_cons_self a l)), List.map_cons,
      ih fun x hx => h x (List.mem_cons_of_mem a hx)]

theorem pairwise_key_inj {l : List DT}
    (h : l.Pairwise fun a b => a.key ≠ b.key) :
    ∀ a ∈ l, ∀ b ∈ l, a.key = b.key → a = b := by
  induction l with
  | nil => intro a ha; simp at ha
  | cons x xs ih =>
    rw [List.pairwise_cons] at h
    intro a ha b hb heq
    rcases List.mem_cons.mp ha with rfl | ha2
    · rcases List.mem_cons.mp hb with rfl | hb2
      · rfl
      · exact absurd heq (h.1 b hb2)
    · rcases List.mem_cons.mp hb with rfl | hb2
      · exact absurd heq.symm (h.1 a ha2)
      · exact ih h.2 a ha2 b hb2 heq

theorem tsDescSort_perm (l : List (Str × Str)) : List.Perm (tsDescSort l) l :=
  List.perm_insertionSort _ l

theorem tsDescSort_sorted (l : List (Str × Str)) :
    List.Sorted (fun a b : Str × Str => ltStr a.2 b.2 = false)
      (tsDescSort l) := by
  haveI ht : IsTotal (Str × Str) fun a b => ltStr a.2 b.2 = false := by
    constructor
    intro a b
    cases hab : ltStr a.2 b.2 with
    | false => exact Or.inl rfl
    | true =>
      cases hba : ltStr b.2 a.2 with
      | false => exact Or.inr rfl
      | true =>
        have h2 := ltStr_trans _ _ _ hab hba
        rw [ltStr_irrefl] at h2
        exact Bool.noConfusion h2
  haveI htr : IsTrans (Str × Str) fun a b => ltStr a.2 b.2 = false := by
    constructor
    intro a b c hab hbc
    cases hac : ltStr a.2 c.2 with
    | false => rfl
    | true =>
      rcases ltStr_resolve _ _ hab with h | h
      · have h2 := ltStr_trans _ _ _ h hac
        rw [hbc] at h2
        exact Bool.noConfusion h2
      · rw [← h, hac] at hbc
        exact Bool.noConfusion hbc
  exact List.sorted_insertionSort _ l

theorem pyMax_foldl (rest : List (DT × Str)) :
    ∀ cur : DT × Str, dtValid cur.1 = true →
    (∀ x ∈ rest, dtValid x.1 = true) →
    ∃ m, rest.foldl (fun cur y => if DT.ltB cur.1 y.1 then y else cur) cur = m ∧
      (m = cur ∨ m ∈ rest) ∧ cur.1.key ≤ m.1.key ∧
      ∀ y ∈ rest, y.1.key ≤ m.1.key := by
  induction rest with
  | nil => intro cur _ _; exact ⟨cur, rfl, Or.inl rfl, le_refl _, by simp⟩
  | cons y ys ih =>
    intro cur hc hall
    have hy := hall y (List.mem_cons_self y ys)
    have hys : ∀ x ∈ ys, dtValid x.1 = true :=
      fun x hx => hall x (List.mem_cons_of_mem y hx)
    rw [List.foldl_cons]
    cases hlt : DT.ltB cur.1 y.1 with
    | true =>
      rw [if_pos rfl]
      obtain ⟨m, hm, hmem, hle, hall2⟩ := ih y hy hys
      have hk : cur.1.key < y.1.key := (ltB_iff_key _ _ hc hy).mp hlt
      refine ⟨m, hm, ?_, by omega, ?_⟩
      · rcases hmem with rfl | h2
        · exact Or.inr (List.mem_cons_self _ _)
        · exact Or.inr (List.mem_cons_of_mem _ h2)
      · intro z hz
        rcases List.mem_cons.mp hz with rfl | h2
        · exact hle
        · exact hall2 z h2
    | false =>
      rw [if_neg (fun h2 => Bool.noConfusion h2)]
      obtain ⟨m, hm, hmem, hle, hall2⟩ := ih cur hc hys
      refine ⟨m, hm, ?_, hle, ?_⟩
      · rcases hmem with rfl | h2
        · exact Or.inl rfl
        · exact Or.inr (List.mem_cons_of_mem _ h2)
      · intro z hz
        rcases List.mem_cons.mp hz with rfl | h2
        · have hk : ¬ cur.1.key < z.1.key := by
            intro hlt2
            have h3 := (ltB_iff_key _ _ hc hy).mpr hlt2
            rw [hlt] at h3
            exact Bool.noConfusion h3
          omega
        · exact hall2 z h2

theorem pyMax_spec (l : List (DT × Str)) (hne : l ≠ [])
    (hall : ∀ x ∈ l, dtValid x.1 = true) :
    ∃ m, pyMaxByKey l = some m ∧ m ∈ l ∧ ∀ y ∈ l, y.1.key ≤ m.1.key := by
  cases l with
  | nil => exact absurd rfl hne
  | cons x rest =>
    obtain ⟨m, hm, hmem, hle, hall2⟩ := pyMax_foldl rest x
      (hall x (List.mem_cons_self x rest))
      (fun z hz => hall z (List.mem_cons_of_mem x hz))
    refine ⟨m, ?_, ?_, ?_⟩
    · simp only [pyMaxByKey]
      rw [hm]
    · rcases hmem with rfl | h2
      · exact List.mem_cons_self _ _
      · exact List.mem_cons_of_mem _ h2
    · intro z hz
      rcases List.mem_cons.mp hz with rfl | h2
      · exact hle
      · exact hall2 z h2

theorem keepLatest_foldl (rest : List (Str × Str)) :
    ∀ cur : Str × Str,
    ∃ m, rest.foldl (fun cur p => if ltStr cur.2 p.2 then p else cur) cur = m ∧
      (m = cur ∨ m ∈ rest) ∧ ltStr m.2 cur.2 = false ∧
      ∀ y ∈ rest, ltStr m.2 y.2 = false := by
  induction rest with
  | nil => intro cur; exact ⟨cur, rfl, Or.inl rfl, ltStr_irrefl _, by simp⟩
  | cons y ys ih =>
    intro cur
    rw [List.foldl_cons]
    cases hlt : ltStr cur.2 y.2 with
    | true =>
      rw [if_pos rfl]
      obtain ⟨m, hm, hmem, hnc, hall⟩ := ih y
      refine ⟨m, hm, ?_, ?_, ?_⟩
      · rcases hmem with rfl | h2
        · exact Or.inr (List.mem_cons_self _ _)
        · exact Or.inr (List.mem_cons_of_mem _ h2)
      · cases hmc : ltStr m.2 cur.2 with
        | false => rfl
        | true =>
          have h2 := ltStr_trans _ _ _ hmc hlt
          rw [hnc] at h2
          exact Bool.noConfusion h2
      · intro z hz
        rcases List.mem_cons.mp hz with rfl | h2
        · exact hnc
        · exact hall z h2
    | false =>
      rw [if_neg (fun h2 => Bool.noConfusion h2)]
      obtain ⟨m, hm, hmem, hnc, hall⟩ := ih cur
      refine ⟨m, hm, ?_, hnc, ?_⟩
      · rcases hmem with rfl | h2
        · exact Or.inl rfl
        · exact Or.inr (List.mem_cons_of_mem _ h2)
      · intro z hz
        rcases List.mem_cons.mp hz with rfl | h2
        · cases hmz : ltStr m.2 z.2 with
          | false => rfl
          | true =>
            rcases ltStr_resolve _ _ hnc with h3 | h3
            · have h4 := ltStr_trans _ _ _ h3 hmz
              rw [hlt] at h4
              exact Bool.noConfusion h4
            · rw [← h3, hmz] at hlt
              exact Bool.noConfusion hlt
        · exact hall z h2

theorem keepLatest_spec (pairs : List (Str × Str)) (hne : pairs ≠ []) :
    ∃ m, keep_latest_by_string pairs = some m ∧ m ∈ pairs ∧
      ∀ y ∈ pairs, ltStr m.2 y.2 = false := by
  cases pairs with
  | nil => exact absurd rfl hne
  | cons x rest =>
    obtain ⟨m, hm, hmem, hnc, hall⟩ := keepLatest_foldl rest x
    refine ⟨m, ?_, ?_, ?_⟩
    · simp only [keep_latest_by_string]
      rw [hm]
    · rcases hmem with rfl | h2
      · exact List.mem_cons_self _ _
      · exact List.mem_cons_of_mem _ h2
    · intro z hz
      rcases List.mem_cons.mp hz with rfl | h2
      · exact hnc
      · exact hall z h2

theorem collectParsed_map (pre : Str) (hpre : pre ≠ []) :
    ∀ dts : List DT, (∀ t ∈ dts, dtValid t = true) →
    (∀ t ∈ dts, occursIn pre (renderTs t) = false) →
    collectParsed pre (dts.map fun t => pre ++ renderTs t)
      = Except.ok (dts.map fun t => (t, pre ++ renderTs t)) := by
  intro dts
  induction dts with
  | nil => intro _ _; rfl
  | cons t ts ih =>
    intro hval hocc
    rw [List.map_cons]
    have hp : pre.isPrefixOf (pre ++ renderTs t) = true := by
      rw [List.isPrefixOf_iff_prefix]
      exact List.prefix_append pre (renderTs t)
    simp only [collectParsed]
    rw [if_pos hp, replaceAll_strip pre (renderTs t) hpre
        (hocc t (List.mem_cons_self t ts)),
      parseTs_renderTs t (hval t (List.mem_cons_self t ts))]
    rw [ih (fun x hx => hval x (List.mem_cons_of_mem t hx))
      (fun x hx => hocc x (List.mem_cons_of_mem t hx))]
    rfl

/-- Claim C3: for a non-empty family of sibling folder names, each a fixed
prefix followed by a `YYYYMMDD_HHMMSS` timestamp (with pairwise-distinct
timestamps, the prefix not reoccurring inside a timestamp, and the
timestamp-extraction regex capturing exactly the suffix), the three "take
the latest" mechanisms of the pipeline agree and return the chronologically
newest folder: the string-sort selection of `get_latest_nuclei_mask_folder`,
the `datetime`-`max` selection of `validate_path_files` step 3, and the
string-compare keep-latest fold of `get_latest_foci_folders`. -/
theorem c3_latest_by_string_sort (pre : Str) (dts : List DT)
    (hpre : pre ≠ []) (hne : dts ≠ [])
    (hval : ∀ t ∈ dts, dtValid t = true)
    (hocc : ∀ t ∈ dts, occursIn pre (renderTs t) = false)
    (hext : ∀ t ∈ dts, extractTs (pre ++ renderTs t) = some (renderTs t))
    (hdist : dts.Pairwise fun a b => a.key ≠ b.key) :
    ∃ best ∈ dts, (∀ t ∈ dts, t.key ≤ best.key) ∧
      get_latest_mask_folder pre (dts.map fun t => pre ++ renderTs t)
        = Except.ok (pre ++ renderTs best) ∧
      validate_latest_processed pre (dts.map fun t => pre ++ renderTs t)
        = Except.ok (some (pre ++ renderTs best)) ∧
      keep_latest_by_string (dts.map fun t => (pre ++ renderTs t, renderTs t))
        = some (pre ++ renderTs best, renderTs best) := by
  have hfilter : ((dts.map fun t => pre ++ renderTs t).filter
      fun f => pre.isPrefixOf f) = dts.map fun t => pre ++ renderTs t := by
    apply List.filter_eq_self.mpr
    intro a ha
    obtain ⟨t, _, rfl⟩ := List.mem_map.mp ha
    rw [List.isPrefixOf_iff_prefix]
    exact List.prefix_append pre (renderTs t)
  have hfm : ((dts.map fun t => pre ++ renderTs t).filterMap fun f =>
      (extractTs f).map fun ts => (f, ts))
      = dts.map fun t => (pre ++ renderTs t, renderTs t) := by
    rw [List.filterMap_map]
    apply filterMap_eq_map_of_some
    intro t ht
    simp only [Function.comp]
    rw [hext t ht]
    rfl
  have hpairsne : (dts.map fun t => (pre ++ renderTs t, renderTs t)) ≠ [] := by
    intro h2
    exact hne (List.map_eq_nil_iff.mp h2)
  have hnamesne : (dts.map fun t => pre ++ renderTs t) ≠ [] := by
    intro h2
    exact hne (List.map_eq_nil_iff.mp h2)
  have hpairsEmpty :
      (dts.map fun t => (pre ++ renderTs t, renderTs t)).isEmpty = false := by
    cases h2 : dts.map fun t => (pre ++ renderTs t, renderTs t) with
    | nil => exact absurd h2 hpairsne
    | cons a l => rfl
  have hnamesEmpty : (dts.map fun t => pre ++ renderTs t).isEmpty = false := by
    cases h2 : dts.map fun t => pre ++ renderTs t with
    | nil => exact absurd h2 hnamesne
    | cons a l => rfl
  cases hsorted : tsDescSort (dts.map fun t =>
      (pre ++ renderTs t, renderTs t)) with
  | nil =>
    have hperm := (tsDescSort_perm (dts.map fun t =>
      (pre ++ renderTs t, renderTs t))).length_eq
    rw [hsorted] at hperm
    cases h2 : dts.map fun t => (pre ++ renderTs t, renderTs t) with
    | nil => exact absurd h2 hpairsne
    | cons a l =>
      rw [h2] at hperm
      simp at hperm
  | cons hd tl =>
    have hhdmem : hd ∈ dts.map fun t => (pre ++ renderTs t, renderTs t) := by
      rw [← (tsDescSort_perm (dts.map fun t =>
        (pre ++ renderTs t, renderTs t))).mem_iff]
      rw [hsorted]
      exact List.mem_cons_self _ _
    obtain ⟨tb, htb, hhd⟩ := List.mem_map.mp hhdmem
    have hmaxstr : ∀ y ∈ dts.map fun t => (pre ++ renderTs t, renderTs t),
        ltStr hd.2 y.2 = false := by
      intro y hy
      rw [← (tsDescSort_perm (dts.map fun t =>
        (pre ++ renderTs t, renderTs t))).mem_iff, hsorted] at hy
      rcases List.mem_cons.mp hy with rfl | hy2
      · exact ltStr_irrefl _
      · have hs := tsDescSort_sorted (dts.map fun t =>
          (pre ++ renderTs t, renderTs t))
        rw [hsorted] at hs
        exact List.rel_of_sorted_cons hs y hy2
    have hmaxkey : ∀ t ∈ dts, t.key ≤ tb.key := by
      intro t ht
      have h2 := hmaxstr (pre ++ renderTs t, renderTs t)
        (List.mem_map.mpr ⟨t, ht, rfl⟩)
      rw [← hhd] at h2
      by_contra hlt
      rw [(render_lt_iff tb t (hval tb htb) (hval t ht)).mpr (by omega)] at h2
      exact Bool.noConfusion h2
    refine ⟨tb, htb, hmaxkey, ?_, ?_, ?_⟩
    · unfold get_latest_mask_folder
      rw [hfilter, hfm, hsorted]
      rw [if_neg (by rw [hnamesEmpty]; simp),
        if_neg (by rw [hpairsEmpty]; simp)]
      rw [← hhd]
      rfl
    · unfold validate_latest_processed
      rw [collectParsed_map pre hpre dts hval hocc]
      have hplne : (dts.map fun t => (t, pre ++ renderTs t)) ≠ [] := by
        intro h2
        exact hne (List.map_eq_nil_iff.mp h2)
      obtain ⟨m, hm, hmem, hmax⟩ := pyMax_spec
        (dts.map fun t => (t, pre ++ renderTs t)) hplne
        (by
          intro x hx
          obtain ⟨t, ht, rfl⟩ := List.mem_map.mp hx
          exact hval t ht)
      obtain ⟨tm, htm, hmeq⟩ := List.mem_map.mp hmem
      have h1 : tm.key ≤ tb.key := hmaxkey tm htm
      have h2 : tb.key ≤ tm.key := by
        have h3 := hmax (tb, pre ++ renderTs tb) (List.mem_map.mpr ⟨tb, htb, rfl⟩)
        rw [← hmeq] at h3
        exact h3
      have heq : tm = tb := pairwise_key_inj hdist tm htm tb htb (by omega)
      show Except.ok ((pyMaxByKey (dts.map fun t =>
        (t, pre ++ renderTs t))).map fun m => m.2) = _
      rw [hm, ← hmeq, heq]
      rfl
    · obtain ⟨m, hm, hmem, hmax⟩ := keepLatest_spec
        (dts.map fun t => (pre ++ renderTs t, renderTs t)) hpairsne
      obtain ⟨tk, htk, hmeq⟩ := List.mem_map.mp hmem
      have h1 : tk.key ≤ tb.key := hmaxkey tk htk
      have h2 : tb.key ≤ tk.key := by
        have h3 := hmax (pre ++ renderTs tb, renderTs tb)
          (List.mem_map.mpr ⟨tb, htb, rfl⟩)
        rw [← hmeq] at h3
        by_contra hlt
        rw [(render_lt_iff tk tb (hval tk htk) (hval tb htb)).mpr
          (by omega)] at h3
        exact Bool.noConfusion h3
      have heq : tk = tb := pairwise_key_inj hdist tk htk tb htb (by omega)
      rw [hm, ← hmeq, heq]

/-- Claim C3, witness: two `Final_Nuclei_Mask_` folders; all three selectors
pick the chronologically newer one. -/
theorem c3_witness :
    ∃ best ∈ ([⟨2024, 1, 2, 3, 4, 5⟩, ⟨2024, 12, 31, 23, 59, 58⟩] : List DT),
      (∀ t ∈ ([⟨2024, 1, 2, 3, 4, 5⟩, ⟨2024, 12, 31, 23, 59, 58⟩] : List DT),
        t.key ≤ best.key) ∧
      get_latest_mask_folder ("Final_Nuclei_Mask_".toList)
          (([⟨2024, 1, 2, 3, 4, 5⟩, ⟨2024, 12, 31, 23, 59, 58⟩] : List DT).map
            fun t => "Final_Nuclei_Mask_".toList ++ renderTs t)
        = Except.ok ("Final_Nuclei_Mask_".toList ++ renderTs best) ∧
      validate_latest_processed ("Final_Nuclei_Mask_".toList)
          (([⟨2024, 1, 2, 3, 4, 5⟩, ⟨2024, 12, 31, 23, 59, 58⟩] : List DT).map
            fun t => "Final_Nuclei_Mask_".toList ++ renderTs t)
        = Except.ok (some ("Final_Nuclei_Mask_".toList ++ renderTs best)) ∧
      keep_latest_by_string
          (([⟨2024, 1, 2, 3, 4, 5⟩, ⟨2024, 12, 31, 23, 59, 58⟩] : List DT).map
            fun t => ("Final_Nuclei_Mask_".toList ++ renderTs t, renderTs t))
        = some ("Final_Nuclei_Mask_".toList ++ renderTs best, renderTs best) :=
  c3_latest_by_string_sort ("Final_Nuclei_Mask_".toList)
    [⟨2024, 1, 2, 3, 4, 5⟩, ⟨2024, 12, 31, 23, 59, 58⟩]
    (by decide) (by decide) (by decide) (by decide) (by decide) (by decide)

/-! ### Claim C5 -/

theorem stage1_channel_loop_eq (nc : Int) (fcs : List Int)
    (files : List (Str × Int)) :
    stage1_channel_loop nc fcs files
      = ((files.filter fun f => !(decide (nc > f.2) ||
            fcs.any fun c => decide (c > f.2))).map fun f => f.1,
         (files.filter fun f => decide (nc > f.2) ||
            fcs.any fun c => decide (c > f.2)).map fun f => f.1) := by
  induction files with
  | nil => rfl
  | cons f rest ih =>
    simp only [stage1_channel_loop, ih, List.filter_cons]
    cases hbad : (decide (nc > f.2) || fcs.any fun c => decide (c > f.2)) with
    | true => simp [hbad]
    | false => simp [hbad]

theorem collect_channel_masks_eq (nshape : Nat × Nat)
    (chs : List (Str × Option Img)) :
    collect_channel_masks nshape chs
      = chs.filterMap fun p =>
          match p.2 with
          | none => none
          | some m => if (m.h, m.w) = nshape then some (p.1, m) else none := by
  induction chs with
  | nil => rfl
  | cons ch rest ih =>
    simp only [collect_channel_masks, List.filterMap_cons]
    cases hm : ch.2 with
    | none => simp [ih]
    | some m =>
      by_cases hsh : (m.h, m.w) = nshape
      · simp [hsh, ih]
      · simp [hsh, ih]

theorem foci_companion_loop_eq (isfile : Str → Bool) (nuclei_files : List Str)
    (foci_files : List Str) :
    foci_companion_loop isfile nuclei_files foci_files
      = foci_files.filterMap fun name =>
          if isfile name then
            match extract_common_part name with
            | none => none
            | some common =>
              if companion_name common ∈ nuclei_files then
                some (name, companion_name common)
              else none
          else none := by
  induction foci_files with
  | nil => rfl
  | cons name rest ih =>
    simp only [foci_companion_loop, List.filterMap_cons]
    cases hf : isfile name with
    | false => simp [hf, ih]
    | true =>
      cases hc : extract_common_part name with
      | none => simp [hf, hc, ih]
      | some common =>
        by_cases hn : companion_name common ∈ nuclei_files
        · simp [hf, hc, hn, ih]
        · simp [hf, hc, hn, ih]

/-- Claim C5: at all three cited sites, the offending item is skipped (it
contributes no output) and processing continues with exactly the remaining
items, in order: the stage-1 loop keeps precisely the files whose requested
nuclei and foci channels are all available and skips precisely the others;
the `process_nuclei_image` channel collection keeps precisely the channels
whose mask file exists with the nuclei mask's shape; the companion-mask loop
of `4_calculate_nuc_foci` processes precisely the foci files whose companion
nuclei mask is present (with an extractable common part).  (The logging
itself is an I/O side effect outside the embedding.) -/
theorem c5_log_and_skip (nc : Int) (fcs : List Int) (files : List (Str × Int))
    (nshape : Nat × Nat) (chs : List (Str × Option Img))
    (isfile : Str → Bool) (nuclei_files foci_files : List Str) :
    stage1_channel_loop nc fcs files
      = ((files.filter fun f => !(decide (nc > f.2) ||
            fcs.any fun c => decide (c > f.2))).map fun f => f.1,
         (files.filter fun f => decide (nc > f.2) ||
            fcs.any fun c => decide (c > f.2)).map fun f => f.1) ∧
    collect_channel_masks nshape chs
      = (chs.filterMap fun p =>
          match p.2 with
          | none => none
          | some m => if (m.h, m.w) = nshape then some (p.1, m) else none) ∧
    foci_companion_loop isfile nuclei_files foci_files
      = foci_files.filterMap fun name =>
          if isfile name then
            match extract_common_part name with
            | none => none
            | some common =>
              if companion_name common ∈ nuclei_files then
                some (name, companion_name common)
              else none
          else none :=
  ⟨stage1_channel_loop_eq nc fcs files,
   collect_channel_masks_eq nshape chs,
   foci_companion_loop_eq isfile nuclei_files foci_files⟩

/-! ### Claim C6 -/

theorem splitLines_newline_cons (y : Str) :
    splitLines ('\n' :: y) = [] :: splitLines y := by
  cases y <;> rfl

theorem splitLines_cons_of_ne (c : Char) (hc : c ≠ '\n') (y : Str) :
    splitLines (c :: y)
      = match splitLines y with
        | [] => [[c]]
        | piece :: pieces => (c :: piece) :: pieces := by
  have hpre : (['\n'] : Str).isPrefixOf (c :: y) = ('\n' == c) := by
    show (('\n' == c) && List.isPrefixOf ([] : Str) y) = ('\n' == c)
    rw [show List.isPrefixOf ([] : Str) y = true by cases y <;> rfl,
      Bool.and_true]
  show splitOnSubF ['\n'] (y.length + 1) (c :: y) = _
  simp only [splitOnSubF]
  rw [if_neg]
  · rfl
  · rw [Bool.and_eq_true, hpre, beq_iff_eq]
    intro hcontra
    exact hc (hcontra.1.symm)

theorem splitLines_append_line (x y : Str) (hx : ∀ c ∈ x, c ≠ '\n') :
    splitLines (x ++ '\n' :: y) = x :: splitLines y := by
  induction x with
  | nil => exact splitLines_newline_cons y
  | cons c t ih =>
    rw [List.cons_append,
      splitLines_cons_of_ne c (hx c (List.mem_cons_self c t)) _,
      ih fun a ha => hx a (List.mem_cons_of_mem c ha)]

theorem splitLines_joinln (ls : List Str)
    (h : ∀ l ∈ ls, ∀ c ∈ l, c ≠ '\n') :
    splitLines (joinln ls) = ls ++ [[]] := by
  induction ls with
  | nil => rfl
  | cons l ls ih =>
    have hjoin : joinln (l :: ls) = l ++ '\n' :: joinln ls := by
      simp [joinln, List.flatMap_cons]
    rw [hjoin, splitLines_append_line l _ (h l (List.mem_cons_self l ls)),
      ih fun l2 hl2 => h l2 (List.mem_cons_of_mem l hl2)]
    rfl

theorem occursIn_false_of_not_mem (pat s : Str) (c0 : Char) (hc : c0 ∈ pat)
    (hs : c0 ∉ s) : occursIn pat s = false := by
  cases h : occursIn pat s with
  | false => rfl
  | true =>
    exfalso
    unfold occursIn at h
    obtain ⟨i, _, hp⟩ := List.any_eq_true.mp h
    rw [occursAt, List.isPrefixOf_iff_prefix] at hp
    exact hs (List.drop_subset i s (hp.subset hc))

theorem dropWhile_eq_self_of_head (c : Char) (t : Str)
    (hc : c.isWhitespace = false) :
    (c :: t).dropWhile Char.isWhitespace = c :: t := by
  rw [List.dropWhile_cons, if_neg (by rw [hc]; simp)]

theorem dropWhile_append_of_head (x y : Str)
    (hx : x.dropWhile Char.isWhitespace = x) (hxne : x ≠ []) :
    (x ++ y).dropWhile Char.isWhitespace = x ++ y := by
  cases x with
  | nil => exact absurd rfl hxne
  | cons c t =>
    by_cases hc : c.isWhitespace = true
    · exfalso
      rw [List.dropWhile_cons, if_pos hc] at hx
      have h1 := congrArg List.length hx
      have h2 : (t.dropWhile Char.isWhitespace).length ≤ t.length :=
        (List.dropWhile_sublist _).length_le
      simp at h1
      omega
    · rw [List.cons_append, dropWhile_eq_self_of_head c _
        (by cases h2 : c.isWhitespace with
            | true => exact absurd h2 hc
            | false => rfl)]

theorem pyStrip_head_tail (s : Str)
    (h1 : s.dropWhile Char.isWhitespace = s)
    (h2 : s.reverse.dropWhile Char.isWhitespace = s.reverse) :
    pyStrip s = s := by
  unfold pyStrip
  rw [h1, h2, List.reverse_reverse]

theorem pyStrip_cons_ws (c : Char) (rest : Str) (hc : c.isWhitespace = true) :
    pyStrip (c :: rest) = pyStrip rest := by
  unfold pyStrip
  rw [List.dropWhile_cons, if_pos hc]

theorem pyStrip_sp_append (sp rest : Str)
    (hsp : sp.all Char.isWhitespace = true) :
    pyStrip (sp ++ rest) = pyStrip rest := by
  induction sp with
  | nil => rfl
  | cons c t ih =>
    rw [List.all_cons, Bool.and_eq_true] at hsp
    rw [List.cons_append, pyStrip_cons_ws c _ hsp.1, ih hsp.2]

theorem tok_all_nonws (s : Str) (h : tokClean s = true) :
    s ≠ [] ∧ (∀ c ∈ s, c.isWhitespace = false) ∧ ':' ∉ s := by
  unfold tokClean at h
  simp only [Bool.and_eq_true, Bool.not_eq_true', List.isEmpty_eq_false,
    decide_eq_false_iff_not, List.all_eq_true] at h
  exact ⟨h.1.1, h.1.2, h.2⟩

theorem tok_dropWhile (s : Str) (hne : s ≠ [])
    (hall : ∀ c ∈ s, c.isWhitespace = false) :
    s.dropWhile Char.isWhitespace = s := by
  cases s with
  | nil => rfl
  | cons c t =>
    exact dropWhile_eq_self_of_head c t (hall c (List.mem_cons_self c t))

theorem tok_rev_dropWhile (s : Str) (hne : s ≠ [])
    (hall : ∀ c ∈ s, c.isWhitespace = false) :
    s.reverse.dropWhile Char.isWhitespace = s.reverse := by
  apply tok_dropWhile
  · simpa using hne
  · intro c hc
    exact hall c (List.mem_reverse.mp hc)

theorem stripClean_spec (s : Str) (h : stripClean s = true) :
    s ≠ [] ∧ s.dropWhile Char.isWhitespace = s ∧
      s.reverse.dropWhile Char.isWhitespace = s.reverse := by
  unfold stripClean at h
  simp only [Bool.and_eq_true, Bool.not_eq_true', List.isEmpty_eq_false,
    decide_eq_true_eq] at h
  exact ⟨h.1.1, h.1.2, h.2⟩

theorem nameWF_spec (s : Str) (h : nameWF s = true) :
    s ≠ [] ∧ s.dropWhile Char.isWhitespace = s ∧
      s.reverse.dropWhile Char.isWhitespace = s.reverse ∧
      occursIn (("Image Name:").toList) s = false ∧ '\n' ∉ s := by
  unfold nameWF at h
  simp only [Bool.and_eq_true, Bool.not_eq_true', decide_eq_false_iff_not] at h
  obtain ⟨⟨hsc, hocc⟩, hnl⟩ := h
  obtain ⟨h1, h2, h3⟩ := stripClean_spec s hsc
  exact ⟨h1, h2, h3, hocc, hnl⟩

theorem pyStrip_lit_tok (lit tok : Str)
    (hlitd : lit.dropWhile Char.isWhitespace = lit) (hlitne : lit ≠ [])
    (htokd : tok.reverse.dropWhile Char.isWhitespace = tok.reverse)
    (htokne : tok ≠ []) :
    pyStrip (lit ++ tok) = lit ++ tok := by
  apply pyStrip_head_tail
  · exact dropWhile_append_of_head lit tok hlitd hlitne
  · rw [List.reverse_append]
    exact dropWhile_append_of_head tok.reverse lit.reverse htokd
      (by simpa using htokne)

theorem parse_step_skip (d : List (Str × PData)) (cn : Option Str)
    (cd : PData) (line : Str) (rest : List Str)
    (h1 : (("Image Name:").toList).isPrefixOf (pyStrip line) = false)
    (h2 : (("Pixel Width:").toList).isPrefixOf (pyStrip line) = false)
    (h3 : (("Pixel Height:").toList).isPrefixOf (pyStrip line) = false)
    (h4 : (("Pixel Depth:").toList).isPrefixOf (pyStrip line) = false)
    (h5 : (("Unit:").toList).isPrefixOf (pyStrip line) = false) :
    parse_metadata_file d cn cd (line :: rest)
      = parse_metadata_file d cn cd rest := by
  simp only [parse_metadata_file]
  rw [if_neg (by rw [h1]; simp), if_neg (by rw [h2]; simp),
    if_neg (by rw [h3]; simp), if_neg (by rw [h4]; simp),
    if_neg (by rw [h5]; simp)]

theorem parse_step_name (d : List (Str × PData)) (cn : Option Str)
    (cd : PData) (name : Str) (rest : List Str) (h : nameWF name = true) :
    parse_metadata_file d cn cd ((("Image Name: ").toList ++ name) :: rest)
      = parse_metadata_file (pushEntry d cn cd) (some name) emptyPD rest := by
  obtain ⟨hne, hd, hrd, hocc, _⟩ := nameWF_spec name h
  have hstrip : pyStrip (("Image Name: ").toList ++ name)
      = ("Image Name: ").toList ++ name :=
    pyStrip_lit_tok _ _ (by decide) (by decide) hrd hne
  have hline : ("Image Name: ").toList ++ name
      = ("Image Name:").toList ++ (' ' :: name) := rfl
  have hocc2 : occursIn (("Image Name:").toList) (' ' :: name) = false := by
    rw [occursIn_cons, hocc, Bool.or_false]
    rfl
  have hp : (("Image Name:").toList).isPrefixOf
      (("Image Name:").toList ++ (' ' :: name)) = true := by
    rw [List.isPrefixOf_iff_prefix]
    exact List.prefix_append _ _
  simp only [parse_metadata_file]
  rw [hstrip, hline, if_pos hp,
    replaceAll_strip _ _ (by decide) hocc2,
    pyStrip_cons_ws _ _ (by decide), pyStrip_head_tail name hd hrd]

theorem parse_step_w (d : List (Str × PData)) (cn : Option Str) (cd : PData)
    (tok : Str) (rest : List Str) (h : tokClean tok = true) :
    parse_metadata_file d cn cd ((("  Pixel Width: ").toList ++ tok) :: rest)
      = parse_metadata_file d cn { cd with w := some tok } rest := by
  obtain ⟨hne, hall, hcol⟩ := tok_all_nonws tok h
  have hstrip : pyStrip (("  Pixel Width: ").toList ++ tok)
      = ("Pixel Width: ").toList ++ tok := by
    rw [show ("  Pixel Width: ").toList ++ tok
        = ("  ").toList ++ (("Pixel Width: ").toList ++ tok) from rfl,
      pyStrip_sp_append _ _ (by decide)]
    exact pyStrip_lit_tok _ _ (by decide) (by decide)
      (tok_rev_dropWhile tok hne hall) hne
  have hline : ("Pixel Width: ").toList ++ tok
      = ("Pixel Width:").toList ++ (' ' :: tok) := rfl
  have hocc2 : occursIn (("Pixel Width:").toList) (' ' :: tok) = false := by
    apply occursIn_false_of_not_mem _ _ ':' (by decide)
    intro hmem
    rcases List.mem_cons.mp hmem with h2 | h2
    · exact absurd h2 (by decide)
    · exact hcol h2
  have hp : (("Pixel Width:").toList).isPrefixOf
      (("Pixel Width:").toList ++ (' ' :: tok)) = true := by
    rw [List.isPrefixOf_iff_prefix]
    exact List.prefix_append _ _
  simp only [parse_metadata_file]
  rw [hstrip, hline, if_neg (fun hc => Bool.noConfusion hc), if_pos hp,
    replaceAll_strip _ _ (by decide) hocc2,
    pyStrip_cons_ws _ _ (by decide),
    pyStrip_head_tail tok (tok_dropWhile tok hne hall)
      (tok_rev_dropWhile tok hne hall)]

theorem parse_step_h (d : List (Str × PData)) (cn : Option Str) (cd : PData)
    (tok : Str) (rest : List Str) (h : tokClean tok = true) :
    parse_metadata_file d cn cd ((("  Pixel Height: ").toList ++ tok) :: rest)
      = parse_metadata_file d cn { cd with h := some tok } rest := by
  obtain ⟨hne, hall, hcol⟩ := tok_all_nonws tok h
  have hstrip : pyStrip (("  Pixel Height: ").toList ++ tok)
      = ("Pixel Height: ").toList ++ tok := by
    rw [show ("  Pixel Height: ").toList ++ tok
        = ("  ").toList ++ (("Pixel Height: ").toList ++ tok) from rfl,
      pyStrip_sp_append _ _ (by decide)]
    exact pyStrip_lit_tok _ _ (by decide) (by decide)
      (tok_rev_dropWhile tok hne hall) hne
  have hline : ("Pixel Height: ").toList ++ tok
      = ("Pixel Height:").toList ++ (' ' :: tok) := rfl
  have hocc2 : occursIn (("Pixel Height:").toList) (' ' :: tok) = false := by
    apply occursIn_false_of_not_mem _ _ ':' (by decide)
    intro hmem
    rcases List.mem_cons.mp hmem with h2 | h2
    · exact absurd h2 (by decide)
    · exact hcol h2
  have hp : (("Pixel Height:").toList).isPrefixOf
      (("Pixel Height:").toList ++ (' ' :: tok)) = true := by
    rw [List.isPrefixOf_iff_prefix]
    exact List.prefix_append _ _
  simp only [parse_metadata_file]
  rw [hstrip, hline, if_neg (fun hc => Bool.noConfusion hc),
    if_neg (fun hc => Bool.noConfusion hc), if_pos hp,
    replaceAll_strip _ _ (by decide) hocc2,
    pyStrip_cons_ws _ _ (by decide),
    pyStrip_head_tail tok (tok_dropWhile tok hne hall)
      (tok_rev_dropWhile tok hne hall)]

theorem parse_step_dep (d : List (Str × PData)) (cn : Option Str)
    (cd : PData) (tok : Str) (rest : List Str) (h : tokClean tok = true) :
    parse_metadata_file d cn cd ((("  Pixel Depth: ").toList ++ tok) :: rest)
      = parse_metadata_file d cn { cd with dep := some tok } rest := by
  obtain ⟨hne, hall, hcol⟩ := tok_all_nonws tok h
  have hstrip : pyStrip (("  Pixel Depth: ").toList ++ tok)
      = ("Pixel Depth: ").toList ++ tok := by
    rw [show ("  Pixel Depth: ").toList ++ tok
        = ("  ").toList ++ (("Pixel Depth: ").toList ++ tok) from rfl,
      pyStrip_sp_append _ _ (by decide)]
    exact pyStrip_lit_tok _ _ (by decide) (by decide)
      (tok_rev_dropWhile tok hne hall) hne
  have hline : ("Pixel Depth: ").toList ++ tok
      = ("Pixel Depth:").toList ++ (' ' :: tok) := rfl
  have hocc2 : occursIn (("Pixel Depth:").toList) (' ' :: tok) = false := by
    apply occursIn_false_of_not_mem _ _ ':' (by decide)
    intro hmem
    rcases List.mem_cons.mp hmem with h2 | h2
    · exact absurd h2 (by decide)
    · exact hcol h2
  have hp : (("Pixel Depth:").toList).isPrefixOf
      (("Pixel Depth:").toList ++ (' ' :: tok)) = true := by
    rw [List.isPrefixOf_iff_prefix]
    exact List.prefix_append _ _
  simp only [parse_metadata_file]
  rw [hstrip, hline, if_neg (fun hc => Bool.noConfusion hc),
    if_neg (fun hc => Bool.noConfusion hc),
    if_neg (fun hc => Bool.noConfusion hc), if_pos hp,
    replaceAll_strip _ _ (by decide) hocc2,
    pyStrip_cons_ws _ _ (by decide),
    pyStrip_head_tail tok (tok_dropWhile tok hne hall)
      (tok_rev_dropWhile tok hne hall)]

theorem parse_step_u (d : List (Str × PData)) (cn : Option Str) (cd : PData)
    (tok : Str) (rest : List Str) (h : tokClean tok = true) :
    parse_metadata_file d cn cd ((("  Unit: ").toList ++ tok) :: rest)
      = parse_metadata_file d cn { cd with u := some tok } rest := by
  obtain ⟨hne, hall, hcol⟩ := tok_all_nonws tok h
  have hstrip : pyStrip (("  Unit: ").toList ++ tok)
      = ("Unit: ").toList ++ tok := by
    rw [show ("  Unit: ").toList ++ tok
        = ("  ").toList ++ (("Unit: ").toList ++ tok) from rfl,
      pyStrip_sp_append _ _ (by decide)]
    exact pyStrip_lit_tok _ _ (by decide) (by decide)
      (tok_rev_dropWhile tok hne hall) hne
  have hline : ("Unit: ").toList ++ tok
      = ("Unit:").toList ++ (' ' :: tok) := rfl
  have hocc2 : occursIn (("Unit:").toList) (' ' :: tok) = false := by
    apply occursIn_false_of_not_mem _ _ ':' (by decide)
    intro hmem
    rcases List.mem_cons.mp hmem with h2 | h2
    · exact absurd h2 (by decide)
    · exact hcol h2
  have hp : (("Unit:").toList).isPrefixOf
      (("Unit:").toList ++ (' ' :: tok)) = true := by
    rw [List.isPrefixOf_iff_prefix]
    exact List.prefix_append _ _
  simp only [parse_metadata_file]
  rw [hstrip, hline, if_neg (fun hc => Bool.noConfusion hc),
    if_neg (fun hc => Bool.noConfusion hc),
    if_neg (fun hc => Bool.noConfusion hc),
    if_neg (fun hc => Bool.noConfusion hc), if_pos hp,
    replaceAll_strip _ _ (by decide) hocc2,
    pyStrip_cons_ws _ _ (by decide),
    pyStrip_head_tail tok (tok_dropWhile tok hne hall)
      (tok_rev_dropWhile tok hne hall)]

theorem entryWF_spec (e : MetaEntry) (h : entryWF e = true) :
    nameWF e.name = true ∧ tokClean e.w = true ∧ tokClean e.h = true ∧
      tokClean e.dep = true ∧ tokClean e.u = true ∧ tokClean e.chs = true ∧
      tokClean e.sls = true ∧ tokClean e.frs = true := by
  unfold entryWF at h
  simp only [Bool.and_eq_true] at h
  exact ⟨h.1.1.1.1.1.1.1, h.1.1.1.1.1.1.2, h.1.1.1.1.1.2, h.1.1.1.1.2,
    h.1.1.1.2, h.1.1.2, h.1.2, h.2⟩

theorem strip_ignore_line (lit tok : Str)
    (hlitd : lit.dropWhile Char.isWhitespace = lit) (hlitne : lit ≠ [])
    (h : tokClean tok = true) :
    pyStrip ((' ' :: ' ' :: lit) ++ tok) = lit ++ tok := by
  obtain ⟨hne, hall, _⟩ := tok_all_nonws tok h
  rw [show (' ' :: ' ' :: lit) ++ tok = (' ' :: ' ' :: []) ++ (lit ++ tok) by
      simp,
    pyStrip_sp_append _ _ (by decide)]
  exact pyStrip_lit_tok _ _ hlitd hlitne (tok_rev_dropWhile tok hne hall) hne

theorem parse_entry_step (e : MetaEntry) (he : entryWF e = true)
    (d : List (Str × PData)) (cn : Option Str) (cd : PData)
    (rest : List Str) :
    parse_metadata_file d cn cd (entryLines e ++ rest)
      = parse_metadata_file (pushEntry d cn cd) (some e.name) (fullPD e)
          rest := by
  obtain ⟨hn, hw, hh, hdep, hu, hchs, hsls, hfrs⟩ := entryWF_spec e he
  have hsC : pyStrip (("  Channels: ").toList ++ e.chs)
      = ("Channels: ").toList ++ e.chs :=
    strip_ignore_line (("Channels: ").toList) e.chs (by decide) (by decide)
      hchs
  have hsS : pyStrip (("  Slices: ").toList ++ e.sls)
      = ("Slices: ").toList ++ e.sls :=
    strip_ignore_line (("Slices: ").toList) e.sls (by decide) (by decide) hsls
  have hsF : pyStrip (("  Frames: ").toList ++ e.frs)
      = ("Frames: ").toList ++ e.frs :=
    strip_ignore_line (("Frames: ").toList) e.frs (by decide) (by decide) hfrs
  show parse_metadata_file d cn cd
      ((("Image Name: ").toList ++ e.name) ::
       (("  Pixel Width: ").toList ++ e.w) ::
       (("  Pixel Height: ").toList ++ e.h) ::
       (("  Pixel Depth: ").toList ++ e.dep) ::
       (("  Unit: ").toList ++ e.u) ::
       (("  Channels: ").toList ++ e.chs) ::
       (("  Slices: ").toList ++ e.sls) ::
       (("  Frames: ").toList ++ e.frs) ::
       [] :: rest) = _
  rw [parse_step_name _ _ _ _ _ hn, parse_step_w _ _ _ _ _ hw,
    parse_step_h _ _ _ _ _ hh, parse_step_dep _ _ _ _ _ hdep,
    parse_step_u _ _ _ _ _ hu,
    parse_step_skip _ _ _ _ _ (by rw [hsC]; rfl) (by rw [hsC]; rfl)
      (by rw [hsC]; rfl) (by rw [hsC]; rfl) (by rw [hsC]; rfl),
    parse_step_skip _ _ _ _ _ (by rw [hsS]; rfl) (by rw [hsS]; rfl)
      (by rw [hsS]; rfl) (by rw [hsS]; rfl) (by rw [hsS]; rfl),
    parse_step_skip _ _ _ _ _ (by rw [hsF]; rfl) (by rw [hsF]; rfl)
      (by rw [hsF]; rfl) (by rw [hsF]; rfl) (by rw [hsF]; rfl),
    parse_step_skip _ _ _ _ _ (by rfl) (by rfl) (by rfl) (by rfl) (by rfl)]
  rfl

theorem pushEntry_some (d : List (Str × PData)) (n : Str) (e : MetaEntry)
    (hne : n ≠ []) :
    pushEntry d (some n) (fullPD e)
      = dictInsert (splitext n).1 (fullPD e) d := by
  show (if n ≠ [] ∧ fullPD e ≠ emptyPD
      then dictInsert (splitext n).1 (fullPD e) d else d) = _
  rw [if_pos ⟨hne, by simp [fullPD, emptyPD]⟩]

theorem dictInsert_fresh (k : Str) (v : PData) (d : List (Str × PData))
    (h : k ∉ d.map Prod.fst) :
    dictInsert k v d = d ++ [(k, v)] := by
  induction d with
  | nil => rfl
  | cons p rest ih =>
    rw [List.map_cons, List.mem_cons] at h
    push_neg at h
    simp only [dictInsert]
    rw [if_neg (fun he => h.1 he.symm), ih h.2]
    rfl

theorem parse_entries (es : List MetaEntry)
    (hwf : ∀ e ∈ es, entryWF e = true) :
    ∀ (d : List (Str × PData)) (cn : Option Str) (cd : PData),
    parse_metadata_file d cn cd (es.flatMap entryLines ++ [[]])
      = es.foldl
          (fun acc e => dictInsert (splitext e.name).1 (fullPD e) acc)
          (pushEntry d cn cd) := by
  induction es with
  | nil =>
    intro d cn cd
    show parse_metadata_file d cn cd ([] :: []) = pushEntry d cn cd
    rw [parse_step_skip _ _ _ _ _ (by rfl) (by rfl) (by rfl) (by rfl)
      (by rfl)]
    rfl
  | cons e es ih =>
    intro d cn cd
    rw [show (e :: es).flatMap entryLines ++ [[]]
        = entryLines e ++ (es.flatMap entryLines ++ [[]]) by
      simp [List.flatMap_cons, List.append_assoc]]
    rw [parse_entry_step e (hwf e (List.mem_cons_self e es)) d cn cd,
      ih (fun x hx => hwf x (List.mem_cons_of_mem e hx)), List.foldl_cons]
    congr 1
    exact pushEntry_some _ _ e
      (nameWF_spec e.name
        (entryWF_spec e (hwf e (List.mem_cons_self e es))).1).1

theorem foldl_dictInsert (key : MetaEntry → Str) (es : List MetaEntry) :
    ∀ acc : List (Str × PData),
    (∀ a ∈ es, key a ∉ acc.map Prod.fst) → (es.map key).Nodup →
    es.foldl (fun d x => dictInsert (key x) (fullPD x) d) acc
      = acc ++ es.map fun x => (key x, fullPD x) := by
  induction es with
  | nil => intro acc _ _; simp
  | cons x es ih =>
    intro acc hdisj hnodup
    rw [List.map_cons, List.nodup_cons] at hnodup
    rw [List.foldl_cons, dictInsert_fresh _ _ _
      (hdisj x (List.mem_cons_self x es))]
    rw [ih (acc ++ [(key x, fullPD x)]) ?_ hnodup.2]
    · rw [List.map_cons, List.append_assoc]
      rfl
    · intro a ha hmem
      rw [List.map_append, List.mem_append] at hmem
      rcases hmem with h1 | h2
      · exact hdisj a (List.mem_cons_of_mem x ha) h1
      · have : key a = key x := by simpa using h2
        exact hnodup.1 (this ▸ List.mem_map_of_mem key ha)

theorem extractBlockStep_entry (e : MetaEntry) (he : entryWF e = true)
    (hw : searchLit matchNumAt (("Pixel Width: ").toList) (entryBlock e)
      = some e.w)
    (hhh : searchLit matchNumAt (("Pixel Height: ").toList) (entryBlock e)
      = some e.h)
    (hdd : searchLit matchNumAt (("Pixel Depth: ").toList) (entryBlock e)
      = some e.dep)
    (huu : searchLit matchWordAt (("Unit: ").toList) (entryBlock e)
      = some e.u)
    (d : List (Str × PData)) :
    extractBlockStep d (entryBlock e)
      = dictInsert (splitext e.name).1 (fullPD e) d := by
  obtain ⟨hn, _, _, _, _, _, _, _⟩ := entryWF_spec e he
  obtain ⟨hne, hd2, hrd2, _, hnl⟩ := nameWF_spec e.name hn
  have hhead : (splitLines (entryBlock e)).headD [] = e.name := by
    rw [show entryBlock e = e.name ++ '\n' :: blockTail e from rfl,
      splitLines_append_line e.name _
        (fun c hc hceq => hnl (hceq ▸ hc))]
    rfl
  unfold extractBlockStep
  rw [hw, hhh, hdd, huu, hhead, pyStrip_head_tail e.name hd2 hrd2]
  rfl

theorem extract_foldl_eq (es : List MetaEntry)
    (hwf : ∀ e ∈ es, entryWF e = true)
    (hw : ∀ e ∈ es, searchLit matchNumAt (("Pixel Width: ").toList)
      (entryBlock e) = some e.w)
    (hhh : ∀ e ∈ es, searchLit matchNumAt (("Pixel Height: ").toList)
      (entryBlock e) = some e.h)
    (hdd : ∀ e ∈ es, searchLit matchNumAt (("Pixel Depth: ").toList)
      (entryBlock e) = some e.dep)
    (huu : ∀ e ∈ es, searchLit matchWordAt (("Unit: ").toList)
      (entryBlock e) = some e.u) :
    ∀ acc, (es.map entryBlock).foldl extractBlockStep acc
      = es.foldl
          (fun d x => dictInsert (splitext x.name).1 (fullPD x) d) acc := by
  induction es with
  | nil => intro acc; rfl
  | cons e es ih =>
    intro acc
    rw [List.map_cons, List.foldl_cons, List.foldl_cons,
      extractBlockStep_entry e (hwf e (List.mem_cons_self e es))
        (hw e (List.mem_cons_self e es)) (hhh e (List.mem_cons_self e es))
        (hdd e (List.mem_cons_self e es)) (huu e (List.mem_cons_self e es))]
    exact ih (fun x hx => hwf x (List.mem_cons_of_mem e hx))
      (fun x hx => hw x (List.mem_cons_of_mem e hx))
      (fun x hx => hhh x (List.mem_cons_of_mem e hx))
      (fun x hx => hdd x (List.mem_cons_of_mem e hx))
      (fun x hx => huu x (List.mem_cons_of_mem e hx)) _

theorem find_first_match (filename : Str) (d1 : List (Str × PData)) :
    ∀ (k : Str) (v : PData) (d2 : List (Str × PData)),
    (∀ p ∈ d1, occursIn p.1 filename = false) →
    occursIn k filename = true →
    find_metadata_for_file filename (d1 ++ (k, v) :: d2) = some v := by
  induction d1 with
  | nil =>
    intro k v d2 _ hk
    simp only [List.nil_append, find_metadata_for_file]
    rw [if_pos hk]
  | cons p d1 ih =>
    intro k v d2 hall hk
    simp only [List.cons_append, find_metadata_for_file]
    rw [if_neg (by rw [hall p (List.mem_cons_self p d1)]; simp)]
    exact ih k v d2 (fun q hq => hall q (List.mem_cons_of_mem p hq)) hk

theorem entryLines_no_newline (e : MetaEntry) (he : entryWF e = true) :
    ∀ l ∈ entryLines e, ∀ c ∈ l, c ≠ '\n' := by
  obtain ⟨hn, hw, hh, hdep, hu, hchs, hsls, hfrs⟩ := entryWF_spec e he
  have hnl : '\n' ∉ e.name := (nameWF_spec _ hn).2.2.2.2
  have htok : ∀ tok : Str, tokClean tok = true → '\n' ∉ tok := by
    intro tok ht hmem
    exact absurd ((tok_all_nonws tok ht).2.1 '\n' hmem) (by decide)
  have hline : ∀ (lit tok : Str), '\n' ∉ lit → '\n' ∉ tok →
      ∀ c ∈ lit ++ tok, c ≠ '\n' := by
    intro lit tok h1 h2 c hc hceq
    subst hceq
    rcases List.mem_append.mp hc with h3 | h3
    · exact h1 h3
    · exact h2 h3
  intro l hl
  rcases List.mem_cons.mp hl with rfl | hl
  · exact hline _ _ (by decide) hnl
  rcases List.mem_cons.mp hl with rfl | hl
  · exact hline _ _ (by decide) (htok _ hw)
  rcases List.mem_cons.mp hl with rfl | hl
  · exact hline _ _ (by decide) (htok _ hh)
  rcases List.mem_cons.mp hl with rfl | hl
  · exact hline _ _ (by decide) (htok _ hdep)
  rcases List.mem_cons.mp hl with rfl | hl
  · exact hline _ _ (by decide) (htok _ hu)
  rcases List.mem_cons.mp hl with rfl | hl
  · exact hline _ _ (by decide) (htok _ hchs)
  rcases List.mem_cons.mp hl with rfl | hl
  · exact hline _ _ (by decide) (htok _ hsls)
  rcases List.mem_cons.mp hl with rfl | hl
  · exact hline _ _ (by decide) (htok _ hfrs)
  rcases List.mem_cons.mp hl with rfl | hl
  · intro c hc
    exact absurd hc (List.not_mem_nil c)
  · exact absurd hl (List.not_mem_nil l)

theorem flatMap_joinln (es : List MetaEntry) :
    joinln (es.flatMap entryLines) = es.flatMap writeEntry := by
  induction es with
  | nil => rfl
  | cons e es ih =>
    rw [List.flatMap_cons, List.flatMap_cons,
      show joinln (entryLines e ++ es.flatMap entryLines)
        = joinln (entryLines e) ++ joinln (es.flatMap entryLines) by
        simp [joinln, List.flatMap_append],
      ih]
    rfl

theorem metadata_text_joinln (es : List MetaEntry) :
    metadata_file_text es
      = joinln ((("Image Metadata:").toList)
          :: (("================").toList) :: es.flatMap entryLines) := by
  show ("Image Metadata:\n================\n").toList
      ++ es.flatMap writeEntry = _
  rw [show joinln ((("Image Metadata:").toList)
        :: (("================").toList) :: es.flatMap entryLines)
      = ((("Image Metadata:").toList) ++ ['\n'])
        ++ (((("================").toList) ++ ['\n'])
          ++ joinln (es.flatMap entryLines)) by
    simp [joinln, List.flatMap_cons],
    flatMap_joinln,
    show (("Image Metadata:\n================\n").toList : Str)
      = ((("Image Metadata:").toList) ++ ['\n'])
        ++ ((("================").toList) ++ ['\n']) from rfl,
    List.append_assoc]

theorem text_lines (es : List MetaEntry)
    (hwf : ∀ e ∈ es, entryWF e = true) :
    splitLines (metadata_file_text es)
      = (("Image Metadata:").toList) :: (("================").toList)
          :: (es.flatMap entryLines ++ [[]]) := by
  rw [metadata_text_joinln, splitLines_joinln]
  · rfl
  · intro l hl
    rcases List.mem_cons.mp hl with rfl | hl
    · intro c hc hceq
      subst hceq
      revert hc
      decide
    rcases List.mem_cons.mp hl with rfl | hl
    · intro c hc hceq
      subst hceq
      revert hc
      decide
    · obtain ⟨e, he, hle⟩ := List.mem_flatMap.mp hl
      exact entryLines_no_newline e (hwf e he) l hle

/-- Claim C6 (amended): for well-formed entries with pairwise-distinct base
names (and the decidable side conditions that the block split and the four
regex searches behave as on every well-formed file), both downstream parsers
recover exactly the written entries - same pixel width, height, depth and
unit tokens - keyed by the image's base name; and `find_metadata_for_file`
returns the entry of the FIRST key in file order that is a substring of the
filename (not of every key contained in it). -/
theorem c6_metadata_round_trip (es : List MetaEntry)
    (hwf : ∀ e ∈ es, entryWF e = true)
    (hkeys : (es.map fun e => (splitext e.name).1).Nodup)
    (hblocks : splitOnSub (("Image Name: ").toList) (metadata_file_text es)
      = ("Image Metadata:\n================\n").toList :: es.map entryBlock)
    (hw : ∀ e ∈ es, searchLit matchNumAt (("Pixel Width: ").toList)
      (entryBlock e) = some e.w)
    (hhh : ∀ e ∈ es, searchLit matchNumAt (("Pixel Height: ").toList)
      (entryBlock e) = some e.h)
    (hdd : ∀ e ∈ es, searchLit matchNumAt (("Pixel Depth: ").toList)
      (entryBlock e) = some e.dep)
    (huu : ∀ e ∈ es, searchLit matchWordAt (("Unit: ").toList)
      (entryBlock e) = some e.u) :
    parse_metadata_file [] none emptyPD (splitLines (metadata_file_text es))
      = es.map (fun e => ((splitext e.name).1, fullPD e)) ∧
    extract_metadata (metadata_file_text es)
      = es.map (fun e => ((splitext e.name).1, fullPD e)) ∧
    ∀ (filename : Str) (d1 d2 : List (Str × PData)) (k : Str) (v : PData),
      (∀ p ∈ d1, occursIn p.1 filename = false) →
      occursIn k filename = true →
      find_metadata_for_file filename (d1 ++ (k, v) :: d2) = some v := by
  refine ⟨?_, ?_, ?_⟩
  · rw [text_lines es hwf,
      parse_step_skip _ _ _ _ _ (by rfl) (by rfl) (by rfl) (by rfl) (by rfl),
      parse_step_skip _ _ _ _ _ (by rfl) (by rfl) (by rfl) (by rfl) (by rfl),
      parse_entries es hwf [] none emptyPD,
      show pushEntry ([] : List (Str × PData)) none emptyPD = [] from rfl]
    exact foldl_dictInsert (fun e => (splitext e.name).1) es []
      (by simp) hkeys
  · unfold extract_metadata
    rw [hblocks,
      show (((("Image Metadata:\n================\n").toList : Str)
          :: es.map entryBlock).drop 1) = es.map entryBlock from rfl,
      extract_foldl_eq es hwf hw hhh hdd huu []]
    exact foldl_dictInsert (fun e => (splitext e.name).1) es []
      (by simp) hkeys
  · intro filename d1 d2 k v hall hk
    exact find_first_match filename d1 k v d2 hall hk

set_option maxRecDepth 20000 in
/-- Claim C6, counterexample: write entries for `b.tif` and then `ab.tif`;
`parse_metadata_file` recovers both, but the filename
`ab_nuclei_projection.tif` - which contains `ab.tif`'s base name `ab` - is
matched by `find_metadata_for_file` to the entry of `b` (the first key that
is a substring), not to `ab`'s entry as the claim requires. -/
theorem c6_counterexample :
    find_metadata_for_file (("ab_nuclei_projection.tif").toList)
        (parse_metadata_file [] none emptyPD
          (splitLines (metadata_file_text [exMetaB, exMetaAB])))
      = some (fullPD exMetaB) ∧
    fullPD exMetaB ≠ fullPD exMetaAB := by
  constructor
  · decide
  · decide

set_option maxRecDepth 20000 in
/-- Claim C6, witness: the amended round trip at a concrete two-entry
metadata file. -/
theorem c6_witness :
    parse_metadata_file [] none emptyPD
        (splitLines (metadata_file_text [exMetaB, exMetaAB]))
      = [exMetaB, exMetaAB].map (fun e => ((splitext e.name).1, fullPD e)) ∧
    extract_metadata (metadata_file_text [exMetaB, exMetaAB])
      = [exMetaB, exMetaAB].map (fun e => ((splitext e.name).1, fullPD e)) ∧
    ∀ (filename : Str) (d1 d2 : List (Str × PData)) (k : Str) (v : PData),
      (∀ p ∈ d1, occursIn p.1 filename = false) →
      occursIn k filename = true →
      find_metadata_for_file filename (d1 ++ (k, v) :: d2) = some v :=
  c6_metadata_round_trip [exMetaB, exMetaAB] (by decide) (by decide)
    (by decide) (by decide) (by decide) (by decide) (by decide)
